import Mathlib

/-!
Verification of the conda-declarative manifest model and state reconciler
(`conda_declarative/spec.py` and `conda_declarative/state.py`), as a shallow
embedding: Python dicts become insertion-ordered association lists, Python
exceptions become `Except` values, and the opaque external `MatchSpec`
constraint type is modeled as a record with a name key and a canonical
string form, following the specification's description of it as an atomic
comparable value.
-/

/-! ## String helpers -/

/-- Check that `n` occurs at the start of `h` (substring machinery used to
state facts about error-message contents). -/
def chListHasPre (n : List Char) : List Char → Bool
  | [] => n.isEmpty
  | c :: cs =>
    match n with
    | [] => true
    | a :: as => a = c && chListHasPre as cs

/-- Check that `n` occurs contiguously somewhere inside `h`. -/
def chListHasSub (n : List Char) : List Char → Bool
  | [] => n.isEmpty
  | c :: cs => chListHasPre n (c :: cs) || chListHasSub n cs

/-- Substring test on strings. -/
def strHasSub (needle hay : String) : Bool :=
  chListHasSub needle.data hay.data

/-! ## The opaque MatchSpec value type (external collaborator)

Modelled from the spec: conda's `MatchSpec`/Constraint is "an opaque,
comparable package-version constraint ... an atomic value with a canonical
string form and a `name` key".  Only the name/version/build/channel parts
that this repository's code touches are represented. -/

/-- Characters treated as part of the package name when splitting a spec
string into its name and constraint remainder. -/
def isNameChar (c : Char) : Bool :=
  c.isAlphanum || c = '-' || c = '_' || c = '.'

/-- Model of conda's MatchSpec. -/
structure MatchSpec where
  name : String
  version : Option String := none
  build : Option String := none
  channel : Option String := none
deriving DecidableEq, Repr

/-- Parse a spec string (the `MatchSpec(s)` constructor): the leading run of
name characters is the package name, the remainder (comparison operators
included) is the version constraint. -/
def MatchSpec.parse (s : String) : MatchSpec :=
  let n : List Char := s.data.takeWhile isNameChar
  let rest : List Char := s.data.dropWhile isNameChar
  { name := ⟨n⟩, version := if rest.isEmpty then none else some ⟨rest⟩ }

/-- Canonical string form of a MatchSpec (conda's `str(spec)`), restricted
to the name/version parts the repository serializes. -/
def MatchSpec.render (m : MatchSpec) : String :=
  m.name ++ m.version.getD ""

/-! ## Python dict model -/

/-- Python dict with string keys as an insertion-ordered association list:
assigning to an existing key updates its value in place, a new key is
appended at the end. -/
abbrev PyDict (α : Type) := List (String × α)

/-- Model of `d[k] = v` on a Python dict. -/
def dictSet {α : Type} (d : PyDict α) (kv : String × α) : PyDict α :=
  match d with
  | [] => [kv]
  | p :: rest => if p.1 = kv.1 then kv :: rest else p :: dictSet rest kv

/-- Model of `del d[k]` (applied only when the key is present; on an association
list with unique keys this is a filter). -/
def dictDel {α : Type} (d : PyDict α) (k : String) : PyDict α :=
  d.filter (fun kv => kv.1 ≠ k)

/-- Model of `list(d)` on a Python dict: the keys in insertion order. -/
def dictKeys {α : Type} (d : PyDict α) : List String :=
  d.map (·.1)

/-- Model of `d.get(k)` on a Python dict. -/
def dictGet {α : Type} (d : PyDict α) (k : String) : Option α :=
  (d.find? (fun kv => kv.1 == k)).map (·.2)

/-- A dict whose keys are pairwise distinct, the invariant every genuine
Python dict satisfies. -/
def nodupKeys {α : Type} (d : PyDict α) : Prop :=
  (dictKeys d).Nodup

/-! ## Stable sort by key (Python's `sorted`) -/

/-- Insert into a sorted list, after any element with an equal key, as
Python's stable sort does. -/
def insertByKey {α : Type} (key : α → String) (x : α) : List α → List α
  | [] => [x]
  | y :: ys => if key x < key y then x :: y :: ys else y :: insertByKey key x ys

/-- Stable sort ascending by a string key, modeling Python's `sorted`. -/
def sortByKey {α : Type} (key : α → String) (l : List α) : List α :=
  l.foldl (fun acc x => insertByKey key x acc) []

/-! ## Python exceptions and pydantic validation errors -/

/-- One line error of a pydantic ValidationError. -/
structure VErrItem where
  loc : List String
  msg : String
deriving DecidableEq, Repr

/-- The Python exceptions the modeled code can raise.  `validation` is a
pydantic ValidationError carrying its list of line errors; the others are
builtin exception classes with their message. -/
inductive PyExc where
  | valueError (msg : String)
  | typeError (msg : String)
  | attributeError (msg : String)
  | validation (errs : List VErrItem)
deriving DecidableEq, Repr

/-- Build a single-item pydantic error list. -/
def vErr (loc : List String) (msg : String) : List VErrItem :=
  [{ loc := loc, msg := msg }]

/-! ## EditablePackage (spec.py lines 432-449) -/

/-- A model which stores info about an editable package. -/
structure EditablePackage where
  name : String
  path : String
  editable : Bool
deriving DecidableEq, Repr

/-- Values an attribute lookup on an EditablePackage can produce. -/
inductive PyAttr where
  | s (v : String)
  | b (v : Bool)
deriving DecidableEq, Repr

/-- Attribute lookup on an EditablePackage pydantic model: only the three
declared fields exist; any other attribute (in particular `root`) raises
AttributeError, as pydantic BaseModel does for undeclared attributes. -/
def EditablePackage.getattr (e : EditablePackage) (a : String) : Except PyExc PyAttr :=
  if a = "name" then .ok (.s e.name)
  else if a = "path" then .ok (.s e.path)
  else if a = "editable" then .ok (.b e.editable)
  else .error (.attributeError
    ("\x27EditablePackage\x27 object has no attribute \x27" ++ a ++ "\x27"))

/-- Model of `EditablePackage.__gt__` applied to another EditablePackage
(spec.py line 443): the body evaluates `self.root.name`, so the first step
is an attribute lookup of `root` on `self`; the comparison of names in the
continuation is never reached because EditablePackage has no `root`. -/
def EditablePackage.gtPy (self other : EditablePackage) : Except PyExc Bool :=
  match self.getattr "root" with
  | .error e => .error e
  | .ok _ => .ok (decide (other.name < self.name))

/-- Model of `EditablePackage.__eq__` applied to another EditablePackage
(spec.py lines 446-449): comparison by name only. -/
def EditablePackage.eqPy (self other : EditablePackage) : Bool :=
  self.name == other.name

/-! ## validate_match_spec (spec.py lines 41-82) -/

/-- A raw value a dependency name can map to in the mapping form accepted
by `validate_match_spec`.  `other` stands for a Python value of any further
type, carrying the strings Python would print for `type(value)` and
`str(value)`. -/
inductive DepVal where
  | matchSpec (m : MatchSpec)
  | str (s : String)
  | int (n : Int)
  | bool (b : Bool)
  | dict (kvs : List (String × DepVal))
  | other (tyName strRepr : String)

/-- Model of `str(value)` for a raw dependency value. -/
def DepVal.pyStr : DepVal → String
  | .matchSpec m => m.render
  | .str s => s
  | .int n => toString n
  | .bool b => if b then "True" else "False"
  | .dict _ => "\x7b...\x7d"
  | .other _ r => r

/-- Model of `type(value)` rendered as Python prints it. -/
def DepVal.pyType : DepVal → String
  | .matchSpec _ => "<class \x27conda.models.match_spec.MatchSpec\x27>"
  | .str _ => "<class \x27str\x27>"
  | .int _ => "<class \x27int\x27>"
  | .bool _ => "<class \x27bool\x27>"
  | .dict _ => "<class \x27dict\x27>"
  | .other t _ => t

/-- The error message `validate_match_spec` builds for an unsupported
value type (spec.py lines 78-81). -/
def unsupportedSpecMsg (v : DepVal) : String :=
  "Unsupported type (" ++ v.pyType ++ ") encountered while validating " ++
    "a match spec: " ++ v.pyStr

/-- Key lookup in a structured dependency table. -/
def depDictGet (kvs : List (String × DepVal)) (k : String) : Option DepVal :=
  (kvs.find? (fun kv => kv.1 == k)).map (·.2)

/-- Model of `EditablePackage(name=name, **item)`: pydantic validation requiring a
string `path` and boolean `editable`; extra keys are ignored (pydantic
default), missing or wrongly typed fields fail validation. -/
def epValidate (n : String) (kvs : List (String × DepVal)) :
    Except (List VErrItem) EditablePackage :=
  match depDictGet kvs "path", depDictGet kvs "editable" with
  | some (.str p), some (.bool b) => .ok { name := n, path := p, editable := b }
  | _, _ => .error (vErr [] "Field required")

/-- Model of `MatchSpec(name=name, **item)`: keyword construction of a MatchSpec
from string-valued version/build/channel fields; anything else raises. -/
def mkMatchSpecKw (n : String) (kvs : List (String × DepVal)) : Except PyExc MatchSpec :=
  kvs.foldlM
    (fun (m : MatchSpec) kv =>
      match kv with
      | ("version", .str v) => .ok { m with version := some v }
      | ("build", .str v) => .ok { m with build := some v }
      | ("channel", .str v) => .ok { m with channel := some v }
      | (k, _) => .error (.valueError ("Invalid MatchSpec field: " ++ k)))
    { name := n }

/-- An element of the list `validate_match_spec` returns: a MatchSpec or an
EditablePackage. -/
inductive DepItem where
  | ms (m : MatchSpec)
  | ep (e : EditablePackage)
deriving DecidableEq, Repr

/-- The `name` key both element kinds expose (the sort key). -/
def DepItem.name : DepItem → String
  | .ms m => m.name
  | .ep e => e.name

/-- One iteration of the mapping loop of `validate_match_spec`
(spec.py lines 65-81). -/
def validateSpecEntry (n : String) (v : DepVal) : Except PyExc DepItem :=
  match v with
  | .matchSpec m => .ok (.ms m)
  | .str s => .ok (.ms { name := n, version := some s })
  | .dict kvs =>
    match epValidate n kvs with
    | .ok e => .ok (.ep e)
    | .error _ => (mkMatchSpecKw n kvs).map .ms
  | v => .error (.valueError (unsupportedSpecMsg v))

/-- Model of `validate_match_spec` on the name-to-value mapping form
(spec.py lines 61-82): process each entry in insertion order, stopping at
the first raised error, then sort ascending by name. -/
def validateMatchSpec (kvs : List (String × DepVal)) : Except PyExc (List DepItem) :=
  (kvs.mapM (fun kv => validateSpecEntry kv.1 kv.2)).map (sortByKey DepItem.name)

/-! ## PyPIDependency and PyPIDependencies (spec.py lines 459-601) -/

/-- A model which stores a single PyPI dependency. -/
structure PyPIDependency where
  name : String
  version : Option String := none
  path : Option String := none
  editable : Option Bool := none
deriving DecidableEq, Repr

/-- Model of `PyPIDependency.to_pip` (spec.py lines 578-601). -/
def PyPIDependency.toPip (d : PyPIDependency) : Except PyExc String :=
  if d.editable.getD false then .ok d.name
  else
    match d.version with
    | none => .ok d.name
    | some v =>
      if v = "*" || v = "" then .ok d.name
      else if v.data.head?.elim false Char.isDigit then .ok (d.name ++ "==" ++ v)
      else if v.data.head?.elim false (fun c => c = '<' || c = '>') then .ok (d.name ++ v)
      else .error (.valueError
        ("Cannot convert PyPI dependency to pip format: \x7b\x27" ++ d.name ++
          "\x27: \x27" ++ v ++ "\x27\x7d"))

/-- Model of `TomlSingleEnvironment.get_external_packages` (spec.py lines 709-722)
paired with the list of warnings the call emits: the body is
`{"pip": self.pypi_dependencies.to_pip()}` and contains no warning call. -/
def getExternalPackages (pypi : List PyPIDependency) :
    Except PyExc (List (String × List String)) × List String :=
  ((pypi.mapM PyPIDependency.toPip).map (fun l => [("pip", l)]), [])

/-- A Python object that can appear in the raw input of
`PyPIDependencies._validate_model`: an already constructed PyPIDependency
instance, or raw data. -/
inductive PyObj where
  | pyDep (d : PyPIDependency)
  | str (s : String)
  | int (n : Int)
  | bool (b : Bool)
  | table (kvs : List (String × PyObj))
  | list (xs : List PyObj)

/-- Model of `str(obj)` for a raw PyPI value. -/
def PyObj.pyStr : PyObj → String
  | .pyDep d => d.name
  | .str s => s
  | .int n => toString n
  | .bool b => if b then "True" else "False"
  | .table _ => "\x7b...\x7d"
  | .list _ => "[...]"

/-- Model of `type(obj)` rendered as Python prints it. -/
def PyObj.pyType : PyObj → String
  | .pyDep _ => "<class \x27conda_declarative.spec.PyPIDependency\x27>"
  | .str _ => "<class \x27str\x27>"
  | .int _ => "<class \x27int\x27>"
  | .bool _ => "<class \x27bool\x27>"
  | .table _ => "<class \x27dict\x27>"
  | .list _ => "<class \x27list\x27>"

/-- Key lookup in a structured PyPI table. -/
def pyTableGet (kvs : List (String × PyObj)) (k : String) : Option PyObj :=
  (kvs.find? (fun kv => kv.1 == k)).map (·.2)

/-- Model of `PyPIDependency.model_validate((name, item))` for a name/value pair
coming from the mapping form (spec.py lines 545-565 plus field
validation): a string is a version, a table contributes its
version/path/editable fields (extra keys ignored), anything else raises
the unsupported-type ValueError. -/
def pypiValidateEntry (n : String) (v : PyObj) : Except PyExc PyPIDependency :=
  match v with
  | .str s => .ok { name := n, version := some s }
  | .table kvs =>
    let ver : Except PyExc (Option String) :=
      match pyTableGet kvs "version" with
      | none => .ok none
      | some (.str s) => .ok (some s)
      | some _ => .error (.validation (vErr ["version"] "Input should be a valid string"))
    let pth : Except PyExc (Option String) :=
      match pyTableGet kvs "path" with
      | none => .ok none
      | some (.str s) => .ok (some s)
      | some _ => .error (.validation (vErr ["path"] "Input should be a valid string"))
    let edi : Except PyExc (Option Bool) :=
      match pyTableGet kvs "editable" with
      | none => .ok none
      | some (.bool b) => .ok (some b)
      | some _ => .error (.validation (vErr ["editable"] "Input should be a valid boolean"))
    do
      pure { name := n, version := ← ver, path := ← pth, editable := ← edi }
  | v => .error (.valueError
    ("Unsupported type (" ++ v.pyType ++ ") encountered while " ++
      "validating a pypi dependency: " ++ v.pyStr))

/-- Model of `PyPIDependency.model_validate(obj)` on an arbitrary object, as invoked
on the elements of a list input: a PyPIDependency instance is accepted
without revalidation (pydantic default); any other object is tuple-unpacked
into `name, obj`, so only two-element sequences proceed. -/
def pypiValidateObj : PyObj → Except PyExc PyPIDependency
  | .pyDep d => .ok d
  | .list [a, b] =>
    (match a with
     | .str n => pypiValidateEntry n b
     | _ => .error (.validation (vErr ["name"] "Input should be a valid string")))
  | .list xs =>
    if xs.length < 2 then
      .error (.valueError
        ("not enough values to unpack (expected 2, got " ++ toString xs.length ++ ")"))
    else .error (.valueError "too many values to unpack (expected 2)")
  | v => .error (.valueError
    ("cannot unpack non-sequence " ++ v.pyType))

/-- Model of `PyPIDependencies._validate_model`, list branch, loop body
(spec.py lines 489-494): for an element that is already a PyPIDependency
the code appends `value` — the whole input list — instead of the element;
other elements are validated individually. -/
def pypiListStage (value : List PyObj) : Except PyExc (List PyObj) :=
  value.mapM (fun item =>
    match item with
    | .pyDep _ => .ok (.list value)
    | item => (pypiValidateObj item).map .pyDep)

mutual

/-- Equality as Python's `==` computes it on these objects (PyPIDependency
compares by name, spec.py lines 573-576); never raises. -/
def pyEqM : PyObj → PyObj → Bool
  | .pyDep a, .pyDep b => a.name == b.name
  | .pyDep a, .str s => a.name == s
  | .str s, .pyDep b => b.name == s
  | .str a, .str b => a == b
  | .int a, .int b => a == b
  | .bool a, .bool b => a == b
  | .list xs, .list ys => pyListEqM xs ys
  | _, _ => false

/-- Elementwise Python list equality. -/
def pyListEqM : List PyObj → List PyObj → Bool
  | [], [] => true
  | [], _ :: _ => false
  | _ :: _, [] => false
  | a :: xs, b :: ys => pyEqM a b && pyListEqM xs ys

end

mutual

/-- Model of `a < b` as Python computes it on these objects: PyPIDependency by name
(via total_ordering from `__gt__`/`__eq__`, spec.py lines 567-576), lists
lexicographically, mixed types raise TypeError. -/
def pyLtM : PyObj → PyObj → Except PyExc Bool
  | .pyDep a, .pyDep b => .ok (decide (a.name < b.name))
  | .str a, .str b => .ok (decide (a < b))
  | .int a, .int b => .ok (decide (a < b))
  | .list xs, .list ys => pyListLtM xs ys
  | a, b => .error (.typeError
    ("\x27<\x27 not supported between instances of " ++ a.pyType ++ " and " ++ b.pyType))

/-- Lexicographic Python list comparison. -/
def pyListLtM : List PyObj → List PyObj → Except PyExc Bool
  | [], [] => .ok false
  | [], _ :: _ => .ok true
  | _ :: _, [] => .ok false
  | a :: xs, b :: ys =>
    if pyEqM a b then pyListLtM xs ys else pyLtM a b

end

/-- Stable insertion into a sorted list of Python objects, propagating
comparison exceptions. -/
def pyInsertM (x : PyObj) : List PyObj → Except PyExc (List PyObj)
  | [] => .ok [x]
  | y :: ys => do
    if ← pyLtM x y then
      pure (x :: y :: ys)
    else
      pure (y :: (← pyInsertM x ys))

/-- Model of `sorted(items)` on a list of Python objects (stable, exceptions from
element comparisons propagate). -/
def pySortM (l : List PyObj) : Except PyExc (List PyObj) :=
  l.foldlM (fun acc x => pyInsertM x acc) []

/-- Model of `PyPIDependencies.model_validate` on a list input: the before-validator
loop, the `sorted` call on its result, then pydantic's validation of each
element of the root `list[PyPIDependency]`. -/
def pypiDependenciesValidateList (value : List PyObj) : Except PyExc (List PyPIDependency) := do
  let items ← pypiListStage value
  let sortedItems ← pySortM items
  sortedItems.mapM pypiValidateObj

/-- Model of `PyPIDependencies.model_validate` on a mapping input
(spec.py lines 496-500): validate each name/value pair, then sort by name
(Python's stable sort under the name-based ordering of PyPIDependency). -/
def pypiDependenciesValidateDict (kvs : List (String × PyObj)) :
    Except PyExc (List PyPIDependency) :=
  (kvs.mapM (fun kv => pypiValidateEntry kv.1 kv.2)).map (sortByKey PyPIDependency.name)

/-! ## conda enums and EnvironmentConfig (external collaborator)

Modelled from the spec: the external `EnvironmentConfig` dataclass carries
solver-tuning fields, each of which "left unset must defer to ambient
context defaults at merge time"; unset is Python `None`, modeled as
`Option.none`. -/

/-- conda.base.constants.ChannelPriority. -/
inductive ChannelPriority where
  | strict | flexible | disabled
deriving DecidableEq, Repr

/-- The string value of a ChannelPriority member. -/
def ChannelPriority.val : ChannelPriority → String
  | .strict => "strict"
  | .flexible => "flexible"
  | .disabled => "disabled"

/-- Model of `ChannelPriority(s)`: members by value, raising on anything else. -/
def ChannelPriority.ofVal (s : String) : Option ChannelPriority :=
  if s = "strict" then some .strict
  else if s = "flexible" then some .flexible
  else if s = "disabled" then some .disabled
  else none

/-- conda.base.constants.DepsModifier. -/
inductive DepsModifier where
  | not_set | no_deps | only_deps
deriving DecidableEq, Repr

/-- The string value of a DepsModifier member. -/
def DepsModifier.val : DepsModifier → String
  | .not_set => "not_set"
  | .no_deps => "no_deps"
  | .only_deps => "only_deps"

/-- Model of `DepsModifier(s)`: members by value, raising on anything else. -/
def DepsModifier.ofVal (s : String) : Option DepsModifier :=
  if s = "not_set" then some .not_set
  else if s = "no_deps" then some .no_deps
  else if s = "only_deps" then some .only_deps
  else none

/-- conda.base.constants.SatSolverChoice. -/
inductive SatSolverChoice where
  | pycosat | pycryptosat | picosat
deriving DecidableEq, Repr

/-- The string value of a SatSolverChoice member. -/
def SatSolverChoice.val : SatSolverChoice → String
  | .pycosat => "pycosat"
  | .pycryptosat => "pycryptosat"
  | .picosat => "picosat"

/-- Model of `SatSolverChoice(s)`: members by value, raising on anything else. -/
def SatSolverChoice.ofVal (s : String) : Option SatSolverChoice :=
  if s = "pycosat" then some .pycosat
  else if s = "pycryptosat" then some .pycryptosat
  else if s = "picosat" then some .picosat
  else none

/-- conda.base.constants.UpdateModifier. -/
inductive UpdateModifier where
  | specs_satisfied_skip_solve | freeze_installed | update_deps | update_specs | update_all
deriving DecidableEq, Repr

/-- The string value of an UpdateModifier member. -/
def UpdateModifier.val : UpdateModifier → String
  | .specs_satisfied_skip_solve => "specs_satisfied_skip_solve"
  | .freeze_installed => "freeze_installed"
  | .update_deps => "update_deps"
  | .update_specs => "update_specs"
  | .update_all => "update_all"

/-- Model of `UpdateModifier(s)`: members by value, raising on anything else. -/
def UpdateModifier.ofVal (s : String) : Option UpdateModifier :=
  if s = "specs_satisfied_skip_solve" then some .specs_satisfied_skip_solve
  else if s = "freeze_installed" then some .freeze_installed
  else if s = "update_deps" then some .update_deps
  else if s = "update_specs" then some .update_specs
  else if s = "update_all" then some .update_all
  else none

/-- conda.models.environment.EnvironmentConfig: the dataclass whose fields
state.py populates (state.py lines 80-94); every field may be `None`. -/
structure EnvironmentConfig where
  aggressive_update_packages : Option (List MatchSpec) := none
  channel_priority : Option ChannelPriority := none
  channels : Option (List String) := none
  channel_settings : Option (List (String × String)) := none
  deps_modifier : Option DepsModifier := none
  disallowed_packages : Option (List String) := none
  pinned_packages : Option (List String) := none
  repodata_fns : Option (List String) := none
  sat_solver : Option SatSolverChoice := none
  solver : Option String := none
  track_features : Option (List String) := none
  update_modifier : Option UpdateModifier := none
  use_only_tar_bz2 : Option Bool := none
deriving DecidableEq, Repr

/-- One field assignment of the loop in `TomlSpec._combine`: the override
value is taken unless it is `None`, in which case the current value of the
mutated accumulator is kept. -/
def mergeField {α : Type} (base ov : Option α) : Option α :=
  match ov with
  | none => base
  | some v => some v

/-- One iteration of the outer loop of `TomlSpec._combine`
(spec.py lines 282-288): every field of the accumulator (the mutated
`configs[0]`) is reassigned. -/
def combineStep (acc c : EnvironmentConfig) : EnvironmentConfig :=
  { aggressive_update_packages := mergeField acc.aggressive_update_packages c.aggressive_update_packages
    channel_priority := mergeField acc.channel_priority c.channel_priority
    channels := mergeField acc.channels c.channels
    channel_settings := mergeField acc.channel_settings c.channel_settings
    deps_modifier := mergeField acc.deps_modifier c.deps_modifier
    disallowed_packages := mergeField acc.disallowed_packages c.disallowed_packages
    pinned_packages := mergeField acc.pinned_packages c.pinned_packages
    repodata_fns := mergeField acc.repodata_fns c.repodata_fns
    sat_solver := mergeField acc.sat_solver c.sat_solver
    solver := mergeField acc.solver c.solver
    track_features := mergeField acc.track_features c.track_features
    update_modifier := mergeField acc.update_modifier c.update_modifier
    use_only_tar_bz2 := mergeField acc.use_only_tar_bz2 c.use_only_tar_bz2 }

/-- The value `TomlSpec._combine(configs[0], *rest)` returns
(spec.py lines 262-290): `env_config = configs[0]` is mutated by the field
loop for each later config and then returned. -/
def TomlSpec.combine (c0 : EnvironmentConfig) (rest : List EnvironmentConfig) :
    EnvironmentConfig :=
  rest.foldl combineStep c0

/-- The complete observable effect of a `TomlSpec._combine` call:
(returned object, final state of the first argument, final states of the
remaining arguments).  The return value aliases `configs[0]`, which the
loop mutated in place via `setattr`; the later configs are only read. -/
def TomlSpec.combineCall (c0 : EnvironmentConfig) (rest : List EnvironmentConfig) :
    EnvironmentConfig × EnvironmentConfig × List EnvironmentConfig :=
  (TomlSpec.combine c0 rest, TomlSpec.combine c0 rest, rest)

/-! ## state.py: manifest file shape and update_state -/

/-- The `config` table of the persisted manifest, holding primitive TOML
values only (the shape `env_to_dict` writes, state.py lines 255-285).
Optional fields model keys absent from a hand-written file; `update_state`
always writes all of them. -/
structure ConfigFile where
  aggressive_update_packages : Option (List String) := none
  channel_priority : Option String := none
  channels : Option (List String) := none
  channel_settings : Option (List (String × String)) := none
  deps_modifier : Option String := none
  disallowed_packages : Option (List String) := none
  pinned_packages : Option (List String) := none
  repodata_fns : Option (List String) := none
  sat_solver : Option String := none
  solver : Option String := none
  track_features : Option (List String) := none
  update_modifier : Option String := none
  use_only_tar_bz2 : Option Bool := none
deriving DecidableEq, Repr

/-- The persisted manifest file (the TOML document `to_env_file` writes and
`from_env_file` reads back), restricted to the fields `update_state`
produces or consumes; fields serialized to constant defaults are omitted. -/
structure ManifestFile where
  pfx : String
  platform : String
  name : String := ""
  requested_packages : List String := []
  config : Option ConfigFile := none
deriving DecidableEq, Repr

/-- The parts of `conda.models.environment.Environment` that
`update_state`, `dict_to_env` and `env_to_dict` touch. -/
structure CondaEnv where
  pfx : String
  platform : String
  name : Option String := none
  config : Option EnvironmentConfig := none
  requested_packages : List MatchSpec := []

/-- The ambient conda context fields read by state.py.  `envNameOf` models
`conda.base.context.env_name` for the fixed ambient configuration. -/
structure CondaContext where
  targetPfx : String
  subdir : String
  envNameOf : String → Option String
  aggressive_update_packages : List String
  channel_priority : ChannelPriority
  channels : List String
  channel_settings : List (String × String)
  deps_modifier : DepsModifier
  disallowed_packages : List String
  pinned_packages : List String
  repodata_fns : List String
  sat_solver : SatSolverChoice
  solver : String
  track_features : List String
  update_modifier : UpdateModifier
  use_only_tar_bz2 : Option Bool

/-- The EnvironmentConfig `update_state` builds from the context when the
manifest supplies none (state.py lines 80-94). -/
def configFromContext (ctx : CondaContext) : EnvironmentConfig :=
  { aggressive_update_packages := some (ctx.aggressive_update_packages.map MatchSpec.parse)
    channel_priority := some ctx.channel_priority
    channels := some ctx.channels
    channel_settings := some ctx.channel_settings
    deps_modifier := some ctx.deps_modifier
    disallowed_packages := some ctx.disallowed_packages
    pinned_packages := some ctx.pinned_packages
    repodata_fns := some ctx.repodata_fns
    sat_solver := some ctx.sat_solver
    solver := some ctx.solver
    track_features := some ctx.track_features
    update_modifier := some ctx.update_modifier
    use_only_tar_bz2 := ctx.use_only_tar_bz2 }

/-- The config part of `dict_to_env` (state.py lines 188-223): enum keys
fall back to fixed defaults when absent and raise on unknown values, the
`use_only_tar_bz2` flag is coerced to False when absent, and every other
key passes through (absent keys leave the dataclass default `None`).
`none` models the ValueError an invalid enum value raises. -/
def configFromFile (cf : ConfigFile) : Option EnvironmentConfig := do
  let cp ← match cf.channel_priority with
    | none => pure ChannelPriority.flexible
    | some s => ChannelPriority.ofVal s
  let dm ← match cf.deps_modifier with
    | none => pure DepsModifier.not_set
    | some s => DepsModifier.ofVal s
  let ss ← match cf.sat_solver with
    | none => pure SatSolverChoice.pycosat
    | some s => SatSolverChoice.ofVal s
  let um ← match cf.update_modifier with
    | none => pure UpdateModifier.update_specs
    | some s => UpdateModifier.ofVal s
  pure
    { aggressive_update_packages := cf.aggressive_update_packages.map (List.map MatchSpec.parse)
      channel_priority := some cp
      channels := cf.channels
      channel_settings := cf.channel_settings
      deps_modifier := some dm
      disallowed_packages := cf.disallowed_packages
      pinned_packages := cf.pinned_packages
      repodata_fns := cf.repodata_fns
      sat_solver := some ss
      solver := cf.solver
      track_features := cf.track_features
      update_modifier := some um
      use_only_tar_bz2 := some (cf.use_only_tar_bz2.getD false) }

/-- The config part of `env_to_dict` (state.py lines 255-285): the
aggressive-update list is rendered to strings (empty when `None`), enum
members become their string values and `use_only_tar_bz2` is coerced to
False when `None`; every other field must be a concrete value, since
accessing `.value` on `None` or serializing `None` to TOML raises
(modeled by `none`). -/
def configToFile (ec : EnvironmentConfig) : Option ConfigFile := do
  let cp ← ec.channel_priority
  let dm ← ec.deps_modifier
  let ss ← ec.sat_solver
  let um ← ec.update_modifier
  let chans ← ec.channels
  let cset ← ec.channel_settings
  let dis ← ec.disallowed_packages
  let pin ← ec.pinned_packages
  let rep ← ec.repodata_fns
  let sol ← ec.solver
  let tf ← ec.track_features
  pure
    { aggressive_update_packages :=
        some ((ec.aggressive_update_packages.getD []).map MatchSpec.render)
      channel_priority := some cp.val
      channels := some chans
      channel_settings := some cset
      deps_modifier := some dm.val
      disallowed_packages := some dis
      pinned_packages := some pin
      repodata_fns := some rep
      sat_solver := some ss.val
      solver := some sol
      track_features := some tf
      update_modifier := some um.val
      use_only_tar_bz2 := some (ec.use_only_tar_bz2.getD false) }

/-- Model of `dict_to_env` (state.py lines 164-227) applied to a parsed manifest
file: requested packages are parsed into MatchSpec values and the config
table, when present, is converted (raising on invalid enum values). -/
def dictToEnv (f : ManifestFile) : Option CondaEnv := do
  let cfg ← match f.config with
    | none => pure (none : Option EnvironmentConfig)
    | some cf => (configFromFile cf).map some
  pure
    { pfx := f.pfx
      platform := f.platform
      name := some f.name
      config := cfg
      requested_packages := f.requested_packages.map MatchSpec.parse }

/-- Model of `env_to_dict` (state.py lines 230-285): requested packages are rendered
to their canonical strings, the name is coerced to the empty string when
`None`, and the config is serialized (raising when it is `None` or holds
`None` where a concrete value is required). -/
def envToDict (env : CondaEnv) : Option ManifestFile := do
  let cfgIn ← env.config
  let cf ← configToFile cfgIn
  pure
    { pfx := env.pfx
      platform := env.platform
      name := env.name.getD ""
      requested_packages := env.requested_packages.map MatchSpec.render
      config := some cf }

/-- Apply `packages.update({pkg.name: pkg for pkg in specs})`: assign each
spec under its name in order (for an existing key the value is updated in
place, a new key is appended, exactly what `dict.update` with the
comprehension does). -/
def setFold (d : PyDict MatchSpec) (specs : List MatchSpec) : PyDict MatchSpec :=
  specs.foldl (fun d m => dictSet d (m.name, m)) d

/-- Apply the removal loop `for pkg in remove_specs: if pkg.name in
packages: del packages[pkg.name]`. -/
def delFold (d : PyDict MatchSpec) (specs : List MatchSpec) : PyDict MatchSpec :=
  specs.foldl (fun d m => dictDel d m.name) d

/-- Build the dict `{pkg.name: pkg for pkg in specs}`. -/
def buildDict (specs : List MatchSpec) : PyDict MatchSpec :=
  setFold [] specs

/-- Model of `state.update_state` (state.py lines 28-104) as a pure function: the
existing manifest file (if any) stands for `from_env_file(prefix)`, the
history list for the install history's requested specs, and the returned
manifest file is the document `to_env_file` persists; `none` models a
raised exception. -/
def updateState (ctx : CondaContext) (pfx? : Option String)
    (file? : Option ManifestFile) (history : List String)
    (removeSpecs updateSpecs : Option (List String)) : Option ManifestFile := do
  let p := pfx?.getD ctx.targetPfx
  let rem := (removeSpecs.getD []).map MatchSpec.parse
  let upd := (updateSpecs.getD []).map MatchSpec.parse
  let (pkgs0, cfg0) ← match file? with
    | some f => do
      let env ← dictToEnv f
      pure (buildDict env.requested_packages, env.config)
    | none =>
      pure (buildDict (history.map MatchSpec.parse), (none : Option EnvironmentConfig))
  let pkgs1 := setFold pkgs0 upd
  let pkgs2 := delFold pkgs1 rem
  let cfg := cfg0.getD (configFromContext ctx)
  envToDict
    { pfx := p
      platform := ctx.subdir
      name := ctx.envNameOf p
      config := some cfg
      requested_packages := pkgs2.map (·.2) }

/-! ## TOML document validation (spec.py lines 382-823)

Raw TOML values, the About/Config sub-models, the two root document
variants, and the variant-dispatching `TomlEnvironment.model_validate`. -/

/-- A raw TOML value as `tomllib.loads` produces it. -/
inductive RVal where
  | str (s : String)
  | int (n : Int)
  | bool (b : Bool)
  | table (kvs : List (String × RVal))
  | arr (xs : List RVal)

/-- Key lookup in a raw table. -/
def rGet (kvs : List (String × RVal)) (k : String) : Option RVal :=
  (kvs.find? (fun kv => kv.1 == k)).map (·.2)

/-- Field population with the hyphen alias generator and
`validate_by_name`/`validate_by_alias` both on: the hyphenated alias is
consulted first, then the field name. -/
def fieldLookup (kvs : List (String × RVal)) (fname falias : String) : Option RVal :=
  match rGet kvs falias with
  | some v => some v
  | none => rGet kvs fname

/-- A model which holds author information. -/
structure Author where
  name : String
  email : Option String := none
deriving DecidableEq, Repr

/-- A model which stores metadata about an environment. -/
structure About where
  name : String
  revision : String
  description : String
  authors : List Author := []
  license : String := ""
  license_files : List String := []
  urls : List (String × String) := []
deriving DecidableEq, Repr

/-- A model which stores configuration options for an environment.  The
source field `variables` is named `vars` here because `variables` is a
reserved word in Lean. -/
structure Config where
  channels : List String := []
  platforms : List String := []
  vars : List (String × String) := []
deriving DecidableEq, Repr

/-- Model of `Config.get_environment_config` (spec.py lines 418-429): only the
channels field is carried over. -/
def Config.getEnvironmentConfig (c : Config) : EnvironmentConfig :=
  { channels := some c.channels }

/-- Sequence two field validations the way pydantic composes them: the
first non-ValidationError exception aborts in field order, otherwise the
line errors of both fields are aggregated, otherwise both values are
returned. -/
def vSeq {α β : Type} (a : Except PyExc α) (b : Except PyExc β) : Except PyExc (α × β) :=
  match a, b with
  | .ok x, .ok y => .ok (x, y)
  | .ok _, .error f => .error f
  | .error (.validation e), .ok _ => .error (.validation e)
  | .error (.validation e), .error (.validation f) => .error (.validation (e ++ f))
  | .error (.validation _), .error f => .error f
  | .error e, _ => .error e

/-- Validate a required string field. -/
def reqStr (loc : List String) : Option RVal → Except PyExc String
  | some (.str s) => .ok s
  | some _ => .error (.validation (vErr loc "Input should be a valid string"))
  | none => .error (.validation (vErr loc "Field required"))

/-- Validate an optional string field with a default. -/
def optStr (loc : List String) (dflt : String) : Option RVal → Except PyExc String
  | some (.str s) => .ok s
  | some _ => .error (.validation (vErr loc "Input should be a valid string"))
  | none => .ok dflt

/-- Validate an optional list-of-strings field. -/
def optStrList (loc : List String) : Option RVal → Except PyExc (List String)
  | some (.arr xs) =>
    (xs.mapM (fun x => match x with
      | .str s => Except.ok s
      | _ => Except.error (PyExc.validation (vErr loc "Input should be a valid string"))))
  | some _ => .error (.validation (vErr loc "Input should be a valid list"))
  | none => .ok []

/-- Validate an optional string-to-string table field. -/
def optStrMap (loc : List String) : Option RVal → Except PyExc (List (String × String))
  | some (.table kvs) =>
    (kvs.mapM (fun kv => match kv.2 with
      | .str s => Except.ok (kv.1, s)
      | _ => Except.error (PyExc.validation (vErr (loc ++ [kv.1]) "Input should be a valid string"))))
  | some _ => .error (.validation (vErr loc "Input should be a valid dictionary"))
  | none => .ok []

/-- Validate one author entry. -/
def validateAuthor (loc : List String) (v : RVal) : Except PyExc Author :=
  match v with
  | .table kvs =>
    (vSeq (reqStr (loc ++ ["name"]) (rGet kvs "name"))
      (match rGet kvs "email" with
       | none => .ok none
       | some (.str s) => .ok (some s)
       | some _ => .error (.validation (vErr (loc ++ ["email"]) "Input should be a valid string")))).map
      (fun p => { name := p.1, email := p.2 })
  | _ => .error (.validation (vErr loc "Input should be a valid dictionary"))

/-- Validate the `about` table (spec.py lines 389-408). -/
def validateAbout (v : RVal) : Except PyExc About :=
  match v with
  | .table kvs =>
    (vSeq (vSeq (vSeq (reqStr ["about", "name"] (rGet kvs "name"))
        (reqStr ["about", "revision"] (rGet kvs "revision")))
        (reqStr ["about", "description"] (rGet kvs "description")))
      (vSeq (vSeq (match rGet kvs "authors" with
          | none => .ok []
          | some (.arr xs) => xs.mapM (validateAuthor ["about", "authors"])
          | some _ => .error (.validation (vErr ["about", "authors"] "Input should be a valid list")))
        (optStr ["about", "license"] "" (rGet kvs "license")))
        (vSeq (optStrList ["about", "license-files"] (fieldLookup kvs "license_files" "license-files"))
          (optStrMap ["about", "urls"] (rGet kvs "urls"))))).map
      (fun p =>
        { name := p.1.1.1, revision := p.1.1.2, description := p.1.2,
          authors := p.2.1.1, license := p.2.1.2,
          license_files := p.2.2.1, urls := p.2.2.2 })
  | _ => .error (.validation (vErr ["about"] "Input should be a valid dictionary"))

/-- Validate the `config` table (spec.py lines 411-416). -/
def validateConfig (v : RVal) : Except PyExc Config :=
  match v with
  | .table kvs =>
    (vSeq (optStrList ["config", "channels"] (rGet kvs "channels"))
      (vSeq (optStrList ["config", "platforms"] (rGet kvs "platforms"))
        (optStrMap ["config", "variables"] (rGet kvs "variables")))).map
      (fun p => { channels := p.1, platforms := p.2.1, vars := p.2.2 })
  | _ => .error (.validation (vErr ["config"] "Input should be a valid dictionary"))

mutual

/-- Convert a raw TOML value to the Python value `validate_match_spec`
receives for one dependency entry (an array inside a dependency table has
no matching branch and falls to the unsupported-type error). -/
def rvalToDepVal : RVal → DepVal
  | .str s => .str s
  | .int n => .int n
  | .bool b => .bool b
  | .table kvs => .dict (rvalTableToDep kvs)
  | .arr _ => .other "<class \x27list\x27>" "[...]"

/-- Convert the entries of a raw table for `rvalToDepVal`. -/
def rvalTableToDep : List (String × RVal) → List (String × DepVal)
  | [] => []
  | (k, v) :: rest => (k, rvalToDepVal v) :: rvalTableToDep rest

end

/-- Validate a `MatchSpecList` field (the Annotated type at
spec.py lines 452-456): the BeforeValidator `validate_match_spec` runs on
the raw value; a ValueError it raises surfaces as a pydantic line error, a
raw scalar crashes with AttributeError on `.items()`, a raw non-empty list
crashes with AttributeError on `.name` inside the sort key, and an empty
list validates to the empty list. -/
def matchSpecListField (loc : List String) : Option RVal → Except PyExc (List DepItem)
  | none => .ok []
  | some (.table kvs) =>
    match validateMatchSpec (kvs.map (fun kv => (kv.1, rvalToDepVal kv.2))) with
    | .ok items => .ok items
    | .error (.valueError m) => .error (.validation (vErr loc ("Value error, " ++ m)))
    | .error e => .error e
  | some (.arr []) => .ok []
  | some (.arr (_ :: _)) =>
    .error (.attributeError "\x27dict\x27 object has no attribute \x27name\x27")
  | some _ =>
    .error (.attributeError "object has no attribute \x27items\x27")

mutual

/-- Convert a raw TOML value to the Python object the PyPI validators
receive. -/
def rvalToPyObj : RVal → PyObj
  | .str s => .str s
  | .int n => .int n
  | .bool b => .bool b
  | .table kvs => .table (rvalTableToPy kvs)
  | .arr xs => .list (rvalListToPy xs)

/-- Convert the entries of a raw table for `rvalToPyObj`. -/
def rvalTableToPy : List (String × RVal) → List (String × PyObj)
  | [] => []
  | (k, v) :: rest => (k, rvalToPyObj v) :: rvalTableToPy rest

/-- Convert the elements of a raw array for `rvalToPyObj`. -/
def rvalListToPy : List RVal → List PyObj
  | [] => []
  | v :: rest => rvalToPyObj v :: rvalListToPy rest

end

/-- Validate a `PyPIDependencies` field: the mapping form goes through the
dict branch of `_validate_model`, a list through the list branch, any
other raw value crashes on `.items()`. -/
def pypiListField (loc : List String) : Option RVal → Except PyExc (List PyPIDependency)
  | none => .ok []
  | some (.table kvs) =>
    match pypiDependenciesValidateDict (kvs.map (fun kv => (kv.1, rvalToPyObj kv.2))) with
    | .ok deps => .ok deps
    | .error (.valueError m) => .error (.validation (vErr loc ("Value error, " ++ m)))
    | .error e => .error e
  | some (.arr xs) =>
    match pypiDependenciesValidateList (xs.map rvalToPyObj) with
    | .ok deps => .ok deps
    | .error (.valueError m) => .error (.validation (vErr loc ("Value error, " ++ m)))
    | .error e => .error e
  | some _ =>
    .error (.attributeError "object has no attribute \x27items\x27")

/-- Validate the `version` field (non-negative schema revision). -/
def versionField (loc : List String) : Option RVal → Except PyExc Int
  | none => .ok 1
  | some (.int n) => .ok n
  | some _ => .error (.validation (vErr loc "Input should be a valid integer"))

/-- A model which stores a list of dependencies for a platform. -/
structure Platform where
  dependencies : List DepItem := []
deriving DecidableEq, Repr

/-- Validate one platform override block. -/
def validatePlatform (loc : List String) (v : RVal) : Except PyExc Platform :=
  match v with
  | .table kvs =>
    (matchSpecListField (loc ++ ["dependencies"]) (rGet kvs "dependencies")).map
      (fun d => { dependencies := d })
  | _ => .error (.validation (vErr loc "Input should be a valid dictionary"))

/-- Validate the `platform` field: a table of platform override blocks. -/
def platformField (loc : List String) : Option RVal → Except PyExc (List (String × Platform))
  | none => .ok []
  | some (.table kvs) =>
    kvs.mapM (fun kv => (validatePlatform (loc ++ [kv.1]) kv.2).map (fun p => (kv.1, p)))
  | some _ => .error (.validation (vErr loc "Input should be a valid dictionary"))

/-- The `config` field shared by both document variants: optional with an
empty-Config default. -/
def configField : Option RVal → Except PyExc (Option Config)
  | none => .ok (some {})
  | some v => (validateConfig v).map some

/-- The required `about` field shared by both document variants. -/
def aboutField : Option RVal → Except PyExc About
  | none => .error (.validation (vErr ["about"] "Field required"))
  | some v => validateAbout v

/-- A model which handles single environment files
(spec.py lines 678-722). -/
structure TomlSingleEnvironment where
  about : About
  config : Option Config := some {}
  system_requirements : List DepItem := []
  version : Int := 1
  dependencies : List DepItem := []
  platform : List (String × Platform) := []
  pypi_dependencies : List PyPIDependency := []
deriving DecidableEq, Repr

/-- Model of `TomlSingleEnvironment.model_validate` on a raw table: the inherited
fields and the variant's own fields are validated in declaration order
with pydantic's error aggregation; unknown keys are ignored. -/
def validateSingleE (kvs : List (String × RVal)) : Except PyExc TomlSingleEnvironment :=
  (vSeq (vSeq (vSeq (aboutField (rGet kvs "about"))
      (configField (rGet kvs "config")))
      (vSeq (matchSpecListField ["system-requirements"]
          (fieldLookup kvs "system_requirements" "system-requirements"))
        (versionField ["version"] (rGet kvs "version"))))
    (vSeq (matchSpecListField ["dependencies"] (rGet kvs "dependencies"))
      (vSeq (platformField ["platform"] (rGet kvs "platform"))
        (pypiListField ["pypi-dependencies"]
          (fieldLookup kvs "pypi_dependencies" "pypi-dependencies"))))).map
    (fun p =>
      { about := p.1.1.1, config := p.1.1.2,
        system_requirements := p.1.2.1, version := p.1.2.2,
        dependencies := p.2.1, platform := p.2.2.1,
        pypi_dependencies := p.2.2.2 })

/-- A model which stores configuration for a group of dependencies
(spec.py lines 725-740).  The source class is named `Group`; it is named
`DepGroup` here to avoid the ambient algebraic `Group`. -/
structure DepGroup where
  config : Option Config := some {}
  dependencies : List DepItem := []
  description : Option String := none
  platform : List (String × Platform) := []
  pypi_dependencies : List PyPIDependency := []
  system_requirements : List DepItem := []
deriving DecidableEq, Repr

/-- Validate one dependency group. -/
def validateGroup (gname : String) (v : RVal) : Except PyExc DepGroup :=
  match v with
  | .table kvs =>
    (vSeq (vSeq (configField (rGet kvs "config"))
        (matchSpecListField ["groups", gname, "dependencies"] (rGet kvs "dependencies")))
      (vSeq (vSeq (match rGet kvs "description" with
          | none => .ok none
          | some (.str s) => .ok (some s)
          | some _ => .error (.validation (vErr ["groups", gname, "description"] "Input should be a valid string")))
        (platformField ["groups", gname, "platform"] (rGet kvs "platform")))
        (vSeq (pypiListField ["groups", gname, "pypi-dependencies"]
            (fieldLookup kvs "pypi_dependencies" "pypi-dependencies"))
          (matchSpecListField ["groups", gname, "system-requirements"]
            (fieldLookup kvs "system_requirements" "system-requirements"))))).map
      (fun p =>
        { config := p.1.1, dependencies := p.1.2,
          description := p.2.1.1, platform := p.2.1.2,
          pypi_dependencies := p.2.2.1, system_requirements := p.2.2.2 })
  | _ => .error (.validation (vErr ["groups", gname] "Input should be a valid dictionary"))

/-- A sorted, deduplicated list of strings: the canonical form in which a
Python set of strings is iterated by `pformat` (pprint sorts sets). -/
def sortSet (l : List String) : List String :=
  sortByKey id l.dedup

/-- The result of the referential-integrity pass of
`TomlMultiEnvironment._validate_environments` (spec.py lines 788-800):
for each environment, in order, its referenced-but-undefined groups, and
the defined groups referenced by no environment. -/
structure EnvsCheck where
  missing : List (String × List String)
  extra : List String
deriving DecidableEq, Repr

/-- Compute the referential-integrity data: `missing` collects every
environment with at least one undefined group reference together with all
of its undefined references; `extra` is the set of defined groups no
environment references. -/
def envsCheck (envs : List (String × List String)) (groups : List String) : EnvsCheck :=
  { missing := envs.filterMap (fun kv =>
      let miss := sortSet (kv.2.filter (fun g => !(groups.contains g)))
      if miss.isEmpty then none else some (kv.1, miss))
    extra := sortSet (groups.filter (fun g => !(envs.any (fun kv => kv.2.contains g)))) }

/-- The comma-separated body of a pformat-printed set of strings. -/
def pformatStrSetBody : List String → String
  | [] => ""
  | [s] => "\x27" ++ s ++ "\x27"
  | s :: rest => "\x27" ++ s ++ "\x27, " ++ pformatStrSetBody rest

/-- Model of `pprint.pformat` of a set of strings (pprint iterates sets sorted;
repr escaping is not modeled, names are rendered verbatim in quotes). -/
def pformatStrSet (l : List String) : String :=
  "\x7b" ++ pformatStrSetBody l ++ "\x7d"

/-- The per-environment chunks of the missing-groups message
(spec.py lines 804-807): each offending environment's name followed by the
indented pformat of its missing-group set. -/
def missingChunks : List (String × List String) → String
  | [] => ""
  | (e, ms) :: rest => e ++ "  " ++ pformatStrSet ms ++ missingChunks rest

/-- The aggregated missing-groups error message (spec.py lines 808-811),
with `pformat` of an already-built string modeled as quoting it. -/
def envsErrorMsg (missing : List (String × List String)) : String :=
  "Multi-environment specification has environments with undefined " ++
    "dependency groups:\n  \x27" ++ missingChunks missing ++ "\x27"

/-- The unused-groups warning text (spec.py lines 813-819). -/
def unusedGroupsWarning (extra : List String) : String :=
  "Some dependency groups were specified which were never used in any" ++
    "environment. Consider removing these:\n  " ++ pformatStrSet extra

/-- Model of `TomlMultiEnvironment._validate_environments`
(spec.py lines 759-821): rejects an empty environments table, collects all
undefined group references into one aggregated ValueError, and otherwise
returns the environments together with the unused-groups warning when some
defined group is never referenced. -/
def validateEnvironmentsField (envs : List (String × List String)) (groups : List String) :
    Except PyExc (List (String × List String) × List String) :=
  if envs.isEmpty then
    .error (.validation (vErr ["environments"]
      ("Value error, Multi-environment specifications must contain at " ++
        "least one environment.")))
  else
    let c := envsCheck envs groups
    if c.missing.isEmpty then
      .ok (envs, if c.extra.isEmpty then [] else [unusedGroupsWarning c.extra])
    else
      .error (.validation (vErr ["environments"]
        ("Value error, " ++ envsErrorMsg c.missing)))

/-- A model which handles multi environment files
(spec.py lines 743-821). -/
structure TomlMultiEnvironment where
  about : About
  config : Option Config := some {}
  system_requirements : List DepItem := []
  version : Int := 1
  groups : List (String × DepGroup) := []
  environments : List (String × List String) := []
deriving DecidableEq, Repr

/-- The `groups` field of a multi-environment document: validate each
group, then run `_validate_groups` (spec.py lines 749-757), which rejects
an explicitly empty table; an absent field keeps the default without
running the validator (pydantic does not validate defaults). -/
def groupsField : Option RVal → Except PyExc (List (String × DepGroup))
  | none => .ok []
  | some (.table kvs) =>
    match kvs.mapM (fun kv => (validateGroup kv.1 kv.2).map (fun g => (kv.1, g))) with
    | .error e => .error e
    | .ok gs =>
      if gs.isEmpty then
        .error (.validation (vErr ["groups"]
          ("Value error, At least one group is required in a " ++
            "multi-environment specification.")))
      else .ok gs
  | some _ => .error (.validation (vErr ["groups"] "Input should be a valid dictionary"))

/-- The raw `environments` field: a table mapping environment names to
lists of group names. -/
def environmentsRaw : Option RVal → Except PyExc (Option (List (String × List String)))
  | none => .ok none
  | some (.table kvs) =>
    (kvs.mapM (fun kv => (optStrList ["environments", kv.1] (some kv.2)).map
      (fun gs => (kv.1, gs)))).map some
  | some _ => .error (.validation (vErr ["environments"] "Input should be a valid dictionary"))

/-- The `environments` field of a multi-environment document: when the key
is present its after-validator runs with the previously validated groups
from `info.data` (an empty mapping when the groups field failed or was
absent); an absent key keeps the default without validation. -/
def environmentsField (raw : Option RVal) (groupsRes : Except PyExc (List (String × DepGroup))) :
    Except PyExc (List (String × List String) × List String) :=
  match environmentsRaw raw with
  | .error e => .error e
  | .ok none => .ok ([], [])
  | .ok (some envs) =>
    validateEnvironmentsField envs
      (match groupsRes with
       | .ok gs => gs.map (·.1)
       | .error _ => [])

/-- Model of `TomlMultiEnvironment.model_validate` on a raw table, paired with the
warnings emitted during validation. -/
def validateMultiE (kvs : List (String × RVal)) :
    Except PyExc (TomlMultiEnvironment × List String) :=
  let gRes := groupsField (rGet kvs "groups")
  (vSeq (vSeq (vSeq (aboutField (rGet kvs "about"))
      (configField (rGet kvs "config")))
      (vSeq (matchSpecListField ["system-requirements"]
          (fieldLookup kvs "system_requirements" "system-requirements"))
        (versionField ["version"] (rGet kvs "version"))))
    (vSeq gRes (environmentsField (rGet kvs "environments") gRes))).map
    (fun p =>
      ({ about := p.1.1.1, config := p.1.1.2,
         system_requirements := p.1.2.1, version := p.1.2.2,
         groups := p.2.1, environments := p.2.2.1 }, p.2.2.2))

/-- The result of validating against the variant union. -/
inductive TomlEnvU where
  | single (e : TomlSingleEnvironment)
  | multi (e : TomlMultiEnvironment)
deriving DecidableEq, Repr

/-- Model of `TomlEnvironment.model_validate` (spec.py lines 632-645): attempt the
single-environment variant; on a ValidationError (and only on one) fall
back to the multi-environment variant, whose outcome — success or error —
is returned as is. -/
def tomlEnvironmentModelValidate (kvs : List (String × RVal)) :
    Except PyExc (TomlEnvU × List String) :=
  match validateSingleE kvs with
  | .ok e => .ok (.single e, [])
  | .error (.validation _) =>
    (validateMultiE kvs).map (fun p => (.multi p.1, p.2))
  | .error e => .error e

/-! ## Proof-support definitions -/

/-- The last spec named `k` in a list (the value a sequence of dict
assignments leaves behind for that key). -/
def lastVal (u : List MatchSpec) (k : String) : Option MatchSpec :=
  u.foldl (fun acc m => if m.name = k then some m else acc) none

/-- Model of `k` survives the removal loop for `rem`. -/
def notInNames (rem : List MatchSpec) (k : String) : Bool :=
  !((rem.map MatchSpec.name).contains k)

/-- Every entry of the dict is keyed by its value's name and its value is
the parse of some spec string (all dicts `update_state` manipulates have
this shape). -/
def GoodDict (d : PyDict MatchSpec) : Prop :=
  ∀ kv ∈ d, kv.1 = kv.2.name ∧ MatchSpec.parse kv.2.render = kv.2

/-- A raw document failing both variants with distinct errors: the about
table is valid, the dependency value `5` fails the single-environment
variant, and the explicitly empty groups table fails the multi-environment
variant. -/
def c2Doc : List (String × RVal) :=
  [("about", .table [("name", .str "x"), ("revision", .str "1"), ("description", .str "")]),
   ("dependencies", .table [("x", .int 5)]),
   ("groups", .table [])]

/-- A concrete ambient context for counterexamples and witnesses. -/
def ctxC : CondaContext :=
  { targetPfx := "/envs/demo"
    subdir := "linux-64"
    envNameOf := fun _ => some "demo"
    aggressive_update_packages := ["ca-certificates"]
    channel_priority := .flexible
    channels := ["defaults"]
    channel_settings := []
    deps_modifier := .not_set
    disallowed_packages := []
    pinned_packages := []
    repodata_fns := ["repodata.json"]
    sat_solver := .pycosat
    solver := "libmamba"
    track_features := []
    update_modifier := .update_specs
    use_only_tar_bz2 := none }

/-! ## Basic lemmas: strings, substrings, sorting, Except -/

theorem MatchSpec.render_parse (s : String) : (MatchSpec.parse s).render = s := by
  unfold MatchSpec.parse MatchSpec.render
  by_cases he : (s.data.dropWhile isNameChar).isEmpty
  · have hd : s.data.dropWhile isNameChar = [] := List.isEmpty_iff.mp he
    have ht : s.data.takeWhile isNameChar = s.data := by
      have := List.takeWhile_append_dropWhile (p := isNameChar) (l := s.data)
      rw [hd, List.append_nil] at this
      exact this
    simp only [he, if_true, Option.getD_none, ht]
    show String.mk s.data ++ "" = s
    have : String.mk s.data ++ "" = String.mk (s.data ++ []) := rfl
    rw [this, List.append_nil]
  · simp only [he, if_false, Option.getD_some]
    show String.mk _ ++ String.mk _ = s
    have : String.mk (s.data.takeWhile isNameChar) ++ String.mk (s.data.dropWhile isNameChar)
        = String.mk (s.data.takeWhile isNameChar ++ s.data.dropWhile isNameChar) := rfl
    rw [this, List.takeWhile_append_dropWhile]

theorem chListHasPre_append (n t : List Char) : chListHasPre n (n ++ t) = true := by
  induction n with
  | nil => cases t <;> simp [chListHasPre]
  | cons a as ih => simp [chListHasPre, ih]

theorem chListHasSub_of_pre {n h : List Char} (hp : chListHasPre n h = true) :
    chListHasSub n h = true := by
  cases h with
  | nil =>
    cases n with
    | nil => simp [chListHasSub]
    | cons a as => simp [chListHasPre] at hp
  | cons c cs => simp [chListHasSub, hp]

theorem chListHasPre_extend {n h : List Char} (t : List Char)
    (hp : chListHasPre n h = true) : chListHasPre n (h ++ t) = true := by
  induction n generalizing h with
  | nil => cases h ++ t <;> simp [chListHasPre]
  | cons a as ih =>
    cases h with
    | nil => simp [chListHasPre] at hp
    | cons c cs =>
      simp only [chListHasPre, Bool.and_eq_true, decide_eq_true_eq] at hp
      simp only [List.cons_append, chListHasPre, Bool.and_eq_true, decide_eq_true_eq]
      exact ⟨hp.1, ih hp.2⟩

theorem chListHasSub_append_left {n h : List Char} (t : List Char)
    (hs : chListHasSub n h = true) : chListHasSub n (h ++ t) = true := by
  induction h with
  | nil =>
    cases n with
    | nil =>
      cases t with
      | nil => simp [chListHasSub]
      | cons c cs => simp [chListHasSub, chListHasPre]
    | cons a as => simp [chListHasSub] at hs
  | cons c cs ih =>
    simp only [chListHasSub, Bool.or_eq_true] at hs
    rcases hs with hp | hsub
    · have h1 := chListHasPre_extend t hp
      simp only [chListHasSub, List.cons_append, Bool.or_eq_true]
      exact Or.inl h1
    · have h1 := ih hsub
      simp only [chListHasSub, List.cons_append, Bool.or_eq_true]
      exact Or.inr h1

theorem chListHasSub_append_right {n h : List Char} (t : List Char)
    (hs : chListHasSub n h = true) : chListHasSub n (t ++ h) = true := by
  induction t with
  | nil => simpa using hs
  | cons c cs ih =>
    simp only [List.cons_append, chListHasSub, Bool.or_eq_true]
    exact Or.inr ih

theorem strHasSub_append_right {n h : String} (t : String)
    (hs : strHasSub n h = true) : strHasSub n (t ++ h) = true := by
  unfold strHasSub at *
  rw [String.data_append]
  exact chListHasSub_append_right t.data hs

theorem strHasSub_append_left {n h : String} (t : String)
    (hs : strHasSub n h = true) : strHasSub n (h ++ t) = true := by
  unfold strHasSub at *
  rw [String.data_append]
  exact chListHasSub_append_left t.data hs

theorem strHasSub_self_append (n t : String) : strHasSub n (n ++ t) = true := by
  unfold strHasSub
  rw [String.data_append]
  exact chListHasSub_of_pre (chListHasPre_append n.data t.data)

theorem mem_insertByKey {α : Type} (key : α → String) (x y : α) (l : List α) :
    y ∈ insertByKey key x l ↔ y = x ∨ y ∈ l := by
  induction l with
  | nil => simp [insertByKey]
  | cons z zs ih =>
    unfold insertByKey
    by_cases h : key x < key z
    · simp [h]
    · simp only [h, if_false, List.mem_cons, ih]
      tauto

theorem sorted_insertByKey {α : Type} (key : α → String) (x : α) (l : List α)
    (h : l.Pairwise (fun a b => key a ≤ key b)) :
    (insertByKey key x l).Pairwise (fun a b => key a ≤ key b) := by
  induction l with
  | nil => simp [insertByKey]
  | cons z zs ih =>
    rcases List.pairwise_cons.mp h with ⟨hz, hzs⟩
    unfold insertByKey
    by_cases hc : key x < key z
    · rw [if_pos hc]
      refine List.pairwise_cons.mpr ⟨?_, h⟩
      intro b hb
      rcases List.mem_cons.mp hb with rfl | hb
      · exact le_of_lt hc
      · exact le_trans (le_of_lt hc) (hz b hb)
    · rw [if_neg hc]
      refine List.pairwise_cons.mpr ⟨?_, ih hzs⟩
      intro b hb
      rcases (mem_insertByKey key x b zs).mp hb with rfl | hb
      · exact not_lt.mp hc
      · exact hz b hb

theorem sorted_sortByKey_aux {α : Type} (key : α → String) (l : List α) :
    ∀ acc : List α, acc.Pairwise (fun a b => key a ≤ key b) →
      (l.foldl (fun acc x => insertByKey key x acc) acc).Pairwise (fun a b => key a ≤ key b) := by
  induction l with
  | nil => intro acc hacc; simpa using hacc
  | cons z zs ih =>
    intro acc hacc
    exact ih _ (sorted_insertByKey key z acc hacc)

theorem sorted_sortByKey {α : Type} (key : α → String) (l : List α) :
    (sortByKey key l).Pairwise (fun a b => key a ≤ key b) :=
  sorted_sortByKey_aux key l [] (by simp)

theorem mem_sortByKey_aux {α : Type} (key : α → String) (l : List α) :
    ∀ (acc : List α) (x : α),
      x ∈ l.foldl (fun acc x => insertByKey key x acc) acc ↔ x ∈ acc ∨ x ∈ l := by
  induction l with
  | nil => intro acc x; simp
  | cons z zs ih =>
    intro acc x
    rw [List.foldl_cons, ih, mem_insertByKey]
    simp only [List.mem_cons]
    tauto

theorem mem_sortByKey {α : Type} (key : α → String) (l : List α) (x : α) :
    x ∈ sortByKey key l ↔ x ∈ l := by
  unfold sortByKey
  rw [mem_sortByKey_aux]
  simp

theorem except_bind_ok {ε α β : Type} (x : Except ε α) (g : α → Except ε β) (b : β) :
    (x >>= g) = .ok b ↔ ∃ a, x = .ok a ∧ g a = .ok b := by
  cases x <;> simp [Bind.bind, Except.bind]

theorem exceptMapM_ok_length {ε α β : Type} (f : α → Except ε β) :
    ∀ (l : List α) (bs : List β), l.mapM f = .ok bs → bs.length = l.length := by
  intro l
  induction l with
  | nil => intro bs h; rw [List.mapM_nil] at h; cases h; rfl
  | cons a l ih =>
    intro bs h
    rw [List.mapM_cons] at h
    rcases (except_bind_ok _ _ _).mp h with ⟨b, hb, h2⟩
    rcases (except_bind_ok _ _ _).mp h2 with ⟨bs', hbs', h3⟩
    cases h3
    simp [ih bs' hbs']

theorem exceptMapM_ok_get {ε α β : Type} (f : α → Except ε β) :
    ∀ (l : List α) (bs : List β), l.mapM f = .ok bs →
      ∀ (i : Nat) (hi : i < l.length) (hj : i < bs.length),
        f (l.get ⟨i, hi⟩) = .ok (bs.get ⟨i, hj⟩) := by
  intro l
  induction l with
  | nil => intro bs h i hi; exact absurd hi (by simp)
  | cons a l ih =>
    intro bs h i hi hj
    rw [List.mapM_cons] at h
    rcases (except_bind_ok _ _ _).mp h with ⟨b, hb, h2⟩
    rcases (except_bind_ok _ _ _).mp h2 with ⟨bs', hbs', h3⟩
    cases h3
    cases i with
    | zero => simpa using hb
    | succ n =>
      simp only [List.get_cons_succ]
      exact ih bs' hbs' n (Nat.lt_of_succ_lt_succ hi) (Nat.lt_of_succ_lt_succ hj)

/-! ## Claim C7: unsupported dependency value type -/

/-- C7 counterexample: for the mapping `{"foo": 5}`, `validate_match_spec`
raises a ValueError — not a TypeError-class error — and its message names
the offending value and its type but does not contain the offending name
`foo`, refuting the claim that a TypeError-class error identifies both the
name and the value. -/
theorem c7_counterexample :
    validateMatchSpec [("foo", DepVal.other "<class \x27int\x27>" "5")]
      = .error (.valueError (unsupportedSpecMsg (DepVal.other "<class \x27int\x27>" "5")))
    ∧ strHasSub "foo" (unsupportedSpecMsg (DepVal.other "<class \x27int\x27>" "5")) = false
    ∧ strHasSub "5" (unsupportedSpecMsg (DepVal.other "<class \x27int\x27>" "5")) = true := by
  refine ⟨rfl, by decide, by decide⟩

/-- C7 (amended): for every mapping whose prefix validates and then holds a
value that is neither a string, a typed MatchSpec, nor a dict,
`validate_match_spec` fails with a ValueError whose message identifies the
offending value's type and string form (the offending name is not part of
the message, as the counterexample shows). -/
theorem c7_unsupported_value_error
    (pre : List (String × DepVal)) (n t r : String) (post : List (String × DepVal))
    (l : List DepItem) (h : validateMatchSpec pre = .ok l) :
    validateMatchSpec (pre ++ (n, DepVal.other t r) :: post)
      = .error (.valueError (unsupportedSpecMsg (DepVal.other t r))) := by
  unfold validateMatchSpec at h ⊢
  cases hm : pre.mapM (fun kv => validateSpecEntry kv.1 kv.2) with
  | error e => rw [hm] at h; simp [Except.map] at h
  | ok l₀ =>
    rw [List.mapM_append, List.mapM_cons, hm]
    simp [validateSpecEntry, Bind.bind, Except.bind, Except.map]

/-- C7 witness: the amended theorem applied at a concrete mapping. -/
theorem c7_witness :
    validateMatchSpec
        [("alpha", DepVal.str "1.0"), ("foo", DepVal.other "<class \x27int\x27>" "5")]
      = .error (.valueError (unsupportedSpecMsg (DepVal.other "<class \x27int\x27>" "5"))) :=
  c7_unsupported_value_error [("alpha", DepVal.str "1.0")] "foo" "<class \x27int\x27>" "5" []
    [.ms { name := "alpha", version := some "1.0" }] rfl

/-! ## Claim C9: normalization is sorted by name -/

/-- C9: every list `validate_match_spec` accepts comes back sorted
ascending by package name, and the mapping {"python": "*", "flask": "1.0"}
normalizes to [Constraint(flask,1.0), Constraint(python,*)] in that
order. -/
theorem c9_sorted_by_name :
    (∀ (kvs : List (String × DepVal)) (l : List DepItem),
        validateMatchSpec kvs = .ok l → l.Pairwise (fun a b => a.name ≤ b.name))
    ∧ validateMatchSpec [("python", DepVal.str "*"), ("flask", DepVal.str "1.0")]
      = .ok [.ms { name := "flask", version := some "1.0" },
             .ms { name := "python", version := some "*" }] := by
  constructor
  · intro kvs l h
    unfold validateMatchSpec at h
    cases hm : kvs.mapM (fun kv => validateSpecEntry kv.1 kv.2) with
    | error e => rw [hm] at h; simp [Except.map] at h
    | ok l₀ =>
      rw [hm] at h
      simp only [Except.map] at h
      cases h
      exact sorted_sortByKey DepItem.name l₀
  · show (Except.ok [DepItem.ms { name := "python", version := some "*" },
        DepItem.ms { name := "flask", version := some "1.0" }]).map (sortByKey DepItem.name) = _
    have hlt : ("flask" < "python") = True := by
      simp [String.lt_iff_toList_lt]
      decide
    simp only [Except.map, sortByKey, List.foldl_cons, List.foldl_nil, insertByKey,
      DepItem.name]
    rw [if_pos]
    exact String.lt_iff_toList_lt.mpr (by decide)

/-- C9 witness: the sortedness conclusion instantiated at the concrete
output of the example mapping. -/
theorem c9_witness :
    ([DepItem.ms { name := "flask", version := some "1.0" },
      DepItem.ms { name := "python", version := some "*" }]).Pairwise
        (fun a b => a.name ≤ b.name) :=
  c9_sorted_by_name.1 _ _ c9_sorted_by_name.2

/-! ## Claim C8: EditablePackage comparison -/

/-- C8: comparing two EditablePackage values with `>` raises
AttributeError — the body reads `self.root.name`, but EditablePackage is a
plain BaseModel with no `root` attribute — so a dependency list holding
two or more editable packages cannot be sorted with their comparison
methods; `==` does compare by name only, as the second and third conjuncts
evaluate. -/
theorem c8_gt_raises :
    EditablePackage.gtPy { name := "alpha", path := "p1", editable := true }
        { name := "beta", path := "p2", editable := true }
      = .error (.attributeError
          "\x27EditablePackage\x27 object has no attribute \x27root\x27")
    ∧ EditablePackage.eqPy { name := "alpha", path := "p1", editable := true }
        { name := "alpha", path := "p2", editable := false } = true
    ∧ EditablePackage.eqPy { name := "alpha", path := "p1", editable := true }
        { name := "beta", path := "p2", editable := true } = false := by
  refine ⟨rfl, by decide, by decide⟩

/-! ## Claim C10: list input to PyPIDependencies -/

/-- C10: validating a list whose element is an already-constructed
PyPIDependency does not pass it through: the loop appends the whole input
list in place of the element, so the staged list nests the input, and the
nested list then fails tuple unpacking inside PyPIDependency's validator —
model_validate raises instead of returning the input list sorted. -/
theorem c10_list_input_nested :
    pypiListStage [PyObj.pyDep { name := "numpy", version := some "1.0" }]
      = .ok [.list [.pyDep { name := "numpy", version := some "1.0" }]]
    ∧ pypiDependenciesValidateList [PyObj.pyDep { name := "numpy", version := some "1.0" }]
      = .error (.valueError "not enough values to unpack (expected 2, got 1)") :=
  ⟨rfl, rfl⟩

/-! ## Claim C6: external packages and editable PyPI dependencies -/

/-- C6 counterexample: a manifest whose only PyPI dependency is editable
exports it — as its bare name/path — in the pip list and emits no warning,
refuting the claim that editable dependencies are omitted with a warning
naming them. -/
theorem c6_counterexample :
    getExternalPackages [{ name := "./pkg", path := some ".", editable := some true }]
      = (.ok [("pip", ["./pkg"])], []) := rfl

/-- Model of `to_pip` on an editable dependency returns its bare name. -/
theorem toPip_editable (d : PyPIDependency) (hd : d.editable = some true) :
    d.toPip = .ok d.name := by
  simp [PyPIDependency.toPip, hd]

/-- C6 (amended): `get_external_packages` returns `{"pip": L}` where `L`
holds the pip-rendered form of every PyPI dependency in order — editable
entries appear as their bare name/path rather than being dropped — and no
warning is emitted. -/
theorem c6_includes_editables
    (deps : List PyPIDependency) (l : List String)
    (h : deps.mapM PyPIDependency.toPip = .ok l) :
    getExternalPackages deps = (.ok [("pip", l)], [])
    ∧ l.length = deps.length
    ∧ ∀ (i : Nat) (hi : i < deps.length) (hj : i < l.length),
        (deps.get ⟨i, hi⟩).editable = some true →
        l.get ⟨i, hj⟩ = (deps.get ⟨i, hi⟩).name := by
  refine ⟨?_, exceptMapM_ok_length _ _ _ h, ?_⟩
  · unfold getExternalPackages
    rw [h]
    rfl
  · intro i hi hj hed
    have hg := exceptMapM_ok_get _ _ _ h i hi hj
    rw [toPip_editable _ hed] at hg
    exact (Except.ok.inj hg).symm

/-- C6 witness: the amended theorem applied to a list holding one plain and
one editable dependency. -/
theorem c6_witness :
    getExternalPackages
        [{ name := "numpy", version := some "1.0" },
         { name := "./pkg", path := some ".", editable := some true }]
      = (.ok [("pip", ["numpy==1.0", "./pkg"])], []) :=
  (c6_includes_editables
    [{ name := "numpy", version := some "1.0" },
     { name := "./pkg", path := some ".", editable := some true }]
    ["numpy==1.0", "./pkg"] rfl).1

/-! ## Claim C5: _combine mutates its first argument -/

/-- C5 counterexample: after `_combine` runs on two configs the first
argument no longer holds its original channels value — the call mutates
`configs[0]` in place and returns it, refuting the claim that a new object
is returned and every field of the first argument is unchanged. -/
theorem c5_counterexample :
    (TomlSpec.combineCall { channels := some ["y"] } [{ channels := some ["x"] }]).2.1
      ≠ ({ channels := some ["y"] } : EnvironmentConfig) := by
  decide

/-- C5 (amended): `_combine` returns its first argument itself — the
returned object and the first argument's final state are one and the
same — mutated field by field with right-bias (an override's non-None
value replaces the current one, None keeps it); the later configs are not
mutated, and a field no later config sets keeps the first argument's
value. -/
theorem c5_combine_mutates_first :
    (∀ (c0 : EnvironmentConfig) (rest : List EnvironmentConfig),
        (TomlSpec.combineCall c0 rest).2.1 = (TomlSpec.combineCall c0 rest).1
        ∧ (TomlSpec.combineCall c0 rest).2.2 = rest)
    ∧ (∀ c0 c1 : EnvironmentConfig,
        TomlSpec.combine c0 [c1] =
          { aggressive_update_packages :=
              mergeField c0.aggressive_update_packages c1.aggressive_update_packages
            channel_priority := mergeField c0.channel_priority c1.channel_priority
            channels := mergeField c0.channels c1.channels
            channel_settings := mergeField c0.channel_settings c1.channel_settings
            deps_modifier := mergeField c0.deps_modifier c1.deps_modifier
            disallowed_packages := mergeField c0.disallowed_packages c1.disallowed_packages
            pinned_packages := mergeField c0.pinned_packages c1.pinned_packages
            repodata_fns := mergeField c0.repodata_fns c1.repodata_fns
            sat_solver := mergeField c0.sat_solver c1.sat_solver
            solver := mergeField c0.solver c1.solver
            track_features := mergeField c0.track_features c1.track_features
            update_modifier := mergeField c0.update_modifier c1.update_modifier
            use_only_tar_bz2 := mergeField c0.use_only_tar_bz2 c1.use_only_tar_bz2 })
    ∧ (∀ (c0 : EnvironmentConfig) (rest : List EnvironmentConfig),
        (∀ c ∈ rest, c.channels = none) →
        (TomlSpec.combine c0 rest).channels = c0.channels) := by
  refine ⟨fun c0 rest => ⟨rfl, rfl⟩, fun c0 c1 => rfl, ?_⟩
  intro c0 rest
  induction rest generalizing c0 with
  | nil => intro _; rfl
  | cons c cs ih =>
    intro hn
    have hc : c.channels = none := hn c (by simp)
    have hstep : (combineStep c0 c).channels = c0.channels := by
      simp [combineStep, mergeField, hc]
    have := ih (combineStep c0 c) (fun d hd => hn d (by simp [hd]))
    calc (TomlSpec.combine c0 (c :: cs)).channels
        = (TomlSpec.combine (combineStep c0 c) cs).channels := rfl
      _ = (combineStep c0 c).channels := this
      _ = c0.channels := hstep

/-- C5 witness: the no-later-override conclusion applied at concrete
configs. -/
theorem c5_witness :
    (TomlSpec.combine { channels := some ["y"] }
        [({ solver := some "libmamba" } : EnvironmentConfig)]).channels = some ["y"] :=
  c5_combine_mutates_first.2.2 _ _
    (by intro c hc; rw [List.mem_singleton] at hc; subst hc; rfl)

/-! ## Python dict lemmas -/

theorem dictGet_cons {α : Type} (k k' : String) (v : α) (t : PyDict α) :
    dictGet ((k, v) :: t) k' = if k' = k then some v else dictGet t k' := by
  unfold dictGet
  rw [List.find?_cons]
  by_cases h : k' = k
  · subst h
    simp
  · have hb : (((k, v)).1 == k') = false := by
      simp only [beq_eq_false_iff_ne, ne_eq]
      exact fun he => h he.symm
    simp [hb, h]

theorem dictGet_eq_none_iff {α : Type} (d : PyDict α) (k : String) :
    dictGet d k = none ↔ k ∉ dictKeys d := by
  induction d with
  | nil => simp [dictGet, dictKeys]
  | cons p t ih =>
    cases p with
    | mk pk pv =>
      rw [dictGet_cons]
      have hkeys : dictKeys ((pk, pv) :: t) = pk :: dictKeys t := rfl
      rw [hkeys]
      by_cases h : k = pk
      · subst h
        simp
      · simp [h, ih]

theorem dictGet_dictSet {α : Type} (d : PyDict α) (k k' : String) (v : α) :
    dictGet (dictSet d (k, v)) k' = if k' = k then some v else dictGet d k' := by
  induction d with
  | nil => exact dictGet_cons k k' v []
  | cons p t ih =>
    cases p with
    | mk pk pv =>
      have hstep : dictSet ((pk, pv) :: t) (k, v)
          = if pk = k then (k, v) :: t else (pk, pv) :: dictSet t (k, v) := rfl
      rw [hstep]
      by_cases h : pk = k
      · rw [if_pos h, dictGet_cons, dictGet_cons]
        by_cases h2 : k' = k
        · rw [if_pos h2, if_pos h2]
        · rw [if_neg h2, if_neg h2, if_neg (by intro he; exact h2 (he.trans h))]
      · rw [if_neg h, dictGet_cons, dictGet_cons, ih]
        by_cases h2 : k' = pk
        · rw [if_pos h2, if_pos h2,
            if_neg (by intro he; exact h (h2.symm.trans he))]
        · rw [if_neg h2, if_neg h2]

theorem dictGet_dictDel {α : Type} (d : PyDict α) (n k : String) :
    dictGet (dictDel d n) k = if k = n then none else dictGet d k := by
  induction d with
  | nil => simp [dictDel, dictGet]
  | cons p t ih =>
    cases p with
    | mk pk pv =>
      have hstep : dictDel ((pk, pv) :: t) n
          = if pk ≠ n then (pk, pv) :: dictDel t n else dictDel t n := by
        unfold dictDel
        rw [List.filter_cons]
        by_cases h : pk = n <;> simp [h]
      rw [hstep]
      by_cases h : pk = n
      · subst h
        rw [if_neg (by simp), ih]
        by_cases h2 : k = pk
        · simp [h2]
        · rw [if_neg h2, if_neg h2, dictGet_cons, if_neg h2]
      · rw [if_pos h, dictGet_cons, dictGet_cons, ih]
        by_cases h2 : k = pk
        · subst h2
          rw [if_pos rfl, if_pos rfl, if_neg h]
        · rw [if_neg h2, if_neg h2]

theorem dictKeys_dictSet {α : Type} (d : PyDict α) (k : String) (v : α) :
    dictKeys (dictSet d (k, v)) =
      if k ∈ dictKeys d then dictKeys d else dictKeys d ++ [k] := by
  induction d with
  | nil => simp [dictSet, dictKeys]
  | cons p t ih =>
    cases p with
    | mk pk pv =>
      have hstep : dictSet ((pk, pv) :: t) (k, v)
          = if pk = k then (k, v) :: t else (pk, pv) :: dictSet t (k, v) := rfl
      have hkeys : dictKeys ((pk, pv) :: t) = pk :: dictKeys t := rfl
      rw [hstep]
      by_cases h : pk = k
      · rw [if_pos h, hkeys,
          if_pos (by rw [← h]; exact List.mem_cons.mpr (Or.inl rfl))]
        subst h
        rfl
      · rw [if_neg h]
        have hcons : dictKeys ((pk, pv) :: dictSet t (k, v))
            = pk :: dictKeys (dictSet t (k, v)) := rfl
        rw [hcons, ih, hkeys]
        by_cases h2 : k ∈ dictKeys t
        · rw [if_pos h2, if_pos (List.mem_cons.mpr (Or.inr h2))]
        · rw [if_neg h2, if_neg (by
            intro hc
            rcases List.mem_cons.mp hc with he | he
            · exact h he.symm
            · exact h2 he)]
          rfl

theorem dictKeys_dictDel {α : Type} (d : PyDict α) (n : String) :
    dictKeys (dictDel d n) = (dictKeys d).filter (fun x => x ≠ n) := by
  induction d with
  | nil => rfl
  | cons p t ih =>
    cases p with
    | mk pk pv =>
      have hstep : dictDel ((pk, pv) :: t) n
          = if pk ≠ n then (pk, pv) :: dictDel t n else dictDel t n := by
        unfold dictDel
        rw [List.filter_cons]
        by_cases h : pk = n <;> simp [h]
      have hkeys : dictKeys ((pk, pv) :: t) = pk :: dictKeys t := rfl
      rw [hstep, hkeys, List.filter_cons]
      by_cases h : pk = n
      · rw [if_neg (by simp [h]), ih]
        simp [h]
      · rw [if_pos (by simp [h])]
        have hcons : dictKeys ((pk, pv) :: dictDel t n) = pk :: dictKeys (dictDel t n) := rfl
        rw [hcons, ih]
        simp [h]

theorem nodup_dictSet {α : Type} (d : PyDict α) (k : String) (v : α)
    (h : nodupKeys d) : nodupKeys (dictSet d (k, v)) := by
  unfold nodupKeys at *
  rw [dictKeys_dictSet]
  by_cases hm : k ∈ dictKeys d
  · rwa [if_pos hm]
  · rw [if_neg hm]
    rw [List.nodup_append]
    exact ⟨h, List.nodup_singleton k, by simp [List.Disjoint]; intro x hx he; subst he; exact hm hx⟩

theorem nodup_dictDel {α : Type} (d : PyDict α) (n : String)
    (h : nodupKeys d) : nodupKeys (dictDel d n) := by
  unfold nodupKeys at *
  rw [dictKeys_dictDel]
  exact h.filter _

theorem pyDictExt {α : Type} (d₁ : PyDict α) :
    ∀ d₂ : PyDict α, nodupKeys d₁ → nodupKeys d₂ → dictKeys d₁ = dictKeys d₂ →
      (∀ k, dictGet d₁ k = dictGet d₂ k) → d₁ = d₂ := by
  induction d₁ with
  | nil =>
    intro d₂ _ _ hkeys _
    have : dictKeys d₂ = [] := hkeys.symm
    cases d₂ with
    | nil => rfl
    | cons p t => simp [dictKeys] at this
  | cons p t₁ ih =>
    intro d₂ h₁ h₂ hkeys hget
    cases p with
    | mk k v =>
      cases d₂ with
      | nil => simp [dictKeys] at hkeys
      | cons q t₂ =>
        cases q with
        | mk k₂ v₂ =>
          have hk : k = k₂ ∧ dictKeys t₁ = dictKeys t₂ := by
            have : k :: dictKeys t₁ = k₂ :: dictKeys t₂ := hkeys
            exact ⟨List.head_eq_of_cons_eq this, List.tail_eq_of_cons_eq this⟩
          obtain ⟨rfl, hkt⟩ := hk
          have hv : v = v₂ := by
            have := hget k
            rw [dictGet_cons, dictGet_cons, if_pos rfl, if_pos rfl] at this
            exact Option.some.inj this
          subst hv
          have hnod₁ : nodupKeys t₁ := by
            unfold nodupKeys at h₁ ⊢
            exact (List.nodup_cons.mp h₁).2
          have hnod₂ : nodupKeys t₂ := by
            unfold nodupKeys at h₂ ⊢
            exact (List.nodup_cons.mp h₂).2
          have hkn₁ : k ∉ dictKeys t₁ := (List.nodup_cons.mp h₁).1
          have hkn₂ : k ∉ dictKeys t₂ := (List.nodup_cons.mp h₂).1
          have hg : ∀ k', dictGet t₁ k' = dictGet t₂ k' := by
            intro k'
            by_cases hkk : k' = k
            · subst hkk
              rw [(dictGet_eq_none_iff t₁ k').mpr hkn₁, (dictGet_eq_none_iff t₂ k').mpr hkn₂]
            · have := hget k'
              rw [dictGet_cons, dictGet_cons, if_neg hkk, if_neg hkk] at this
              exact this
          rw [ih t₂ hnod₁ hnod₂ hkt hg]

theorem lastVal_shift (u : List MatchSpec) (k : String) :
    ∀ acc : Option MatchSpec,
      u.foldl (fun acc m => if m.name = k then some m else acc) acc
        = mergeField acc (lastVal u k) := by
  induction u with
  | nil => intro acc; simp [lastVal, mergeField]
  | cons m u' ih =>
    intro acc
    rw [List.foldl_cons, ih]
    have hR : lastVal (m :: u') k
        = mergeField (if m.name = k then some m else none) (lastVal u' k) := by
      unfold lastVal
      rw [List.foldl_cons]
      exact ih (if m.name = k then some m else none)
    rw [hR]
    by_cases h : m.name = k
    · rw [if_pos h, if_pos h]
      cases lastVal u' k <;> rfl
    · rw [if_neg h, if_neg h]
      cases lastVal u' k <;> rfl

theorem dictGet_setFold (u : List MatchSpec) :
    ∀ (d : PyDict MatchSpec) (k : String),
      dictGet (setFold d u) k = mergeField (dictGet d k) (lastVal u k) := by
  induction u with
  | nil => intro d k; simp [setFold, lastVal, mergeField]
  | cons m u' ih =>
    intro d k
    have hstep : setFold d (m :: u') = setFold (dictSet d (m.name, m)) u' := rfl
    rw [hstep]
    have hihd := ih (dictSet d (m.name, m)) k
    rw [show setFold (dictSet d (m.name, m)) u'
        = List.foldl (fun d m => dictSet d (m.name, m)) (dictSet d (m.name, m)) u' from rfl] at hihd
    rw [show setFold (dictSet d (m.name, m)) u'
        = List.foldl (fun d m => dictSet d (m.name, m)) (dictSet d (m.name, m)) u' from rfl]
    rw [hihd, dictGet_dictSet]
    have hR : lastVal (m :: u') k
        = mergeField (if m.name = k then some m else none) (lastVal u' k) := by
      unfold lastVal
      rw [List.foldl_cons]
      exact lastVal_shift u' k _
    rw [hR]
    by_cases h : k = m.name
    · rw [if_pos h, if_pos h.symm]
      cases lastVal u' k <;> rfl
    · rw [if_neg h, if_neg (by intro hh; exact h hh.symm)]
      cases lastVal u' k <;> rfl

theorem dictKeys_setFold_exists (u : List MatchSpec) :
    ∀ d : PyDict MatchSpec, ∃ e,
      dictKeys (setFold d u) = dictKeys d ++ e
      ∧ ∀ x ∈ e, x ∈ u.map MatchSpec.name ∧ x ∉ dictKeys d := by
  induction u with
  | nil => intro d; exact ⟨[], by simp [setFold], by simp⟩
  | cons m u' ih =>
    intro d
    have hstep : setFold d (m :: u') = setFold (dictSet d (m.name, m)) u' := by
      simp [setFold]
    by_cases hm : m.name ∈ dictKeys d
    · rcases ih (dictSet d (m.name, m)) with ⟨e, he, hmem⟩
      rw [dictKeys_dictSet, if_pos hm] at he hmem
      exact ⟨e, by rw [hstep, he], fun x hx =>
        ⟨List.mem_cons.mpr (Or.inr ((hmem x hx).1)), (hmem x hx).2⟩⟩
    · rcases ih (dictSet d (m.name, m)) with ⟨e, he, hmem⟩
      rw [dictKeys_dictSet, if_neg hm] at he hmem
      refine ⟨m.name :: e, ?_, ?_⟩
      · rw [hstep, he, List.append_assoc]
        rfl
      · intro x hx
        rcases List.mem_cons.mp hx with rfl | hx
        · exact ⟨by simp, hm⟩
        · refine ⟨List.mem_cons.mpr (Or.inr ((hmem x hx).1)), ?_⟩
          have h2 := (hmem x hx).2
          intro hc
          exact h2 (List.mem_append.mpr (Or.inl hc))

theorem name_mem_keys_setFold (u : List MatchSpec) :
    ∀ (d : PyDict MatchSpec) (m : MatchSpec), m ∈ u → m.name ∈ dictKeys (setFold d u) := by
  induction u with
  | nil => intro d m hm; simp at hm
  | cons m₀ u' ih =>
    intro d m hm
    have hstep : setFold d (m₀ :: u') = setFold (dictSet d (m₀.name, m₀)) u' := by
      simp [setFold]
    rw [hstep]
    rcases List.mem_cons.mp hm with rfl | hm
    · rcases dictKeys_setFold_exists u' (dictSet d (m.name, m)) with ⟨e, he, _⟩
      rw [he]
      rw [dictKeys_dictSet]
      by_cases h : m.name ∈ dictKeys d <;> simp [h]
    · exact ih _ m hm

theorem dictKeys_delFold (rem : List MatchSpec) :
    ∀ d : PyDict MatchSpec,
      dictKeys (delFold d rem) = (dictKeys d).filter (notInNames rem) := by
  induction rem with
  | nil =>
    intro d
    unfold delFold
    rw [List.foldl_nil]
    rw [List.filter_congr (fun x _ => by simp [notInNames, List.contains] : ∀ x ∈ dictKeys d, notInNames [] x = true)]
    simp
  | cons m rem' ih =>
    intro d
    unfold delFold at *
    rw [List.foldl_cons, ih, dictKeys_dictDel, List.filter_filter]
    apply List.filter_congr
    intro x _
    simp only [notInNames, List.map_cons, List.contains_cons, Bool.not_or, ne_eq]
    by_cases hx : x = m.name <;> simp [hx]

theorem notInNames_cons (m : MatchSpec) (rem : List MatchSpec) (k : String) :
    notInNames (m :: rem) k = (!(k == m.name) && notInNames rem k) := by
  simp only [notInNames, List.map_cons, List.contains_cons, Bool.not_or]

theorem dictGet_delFold (rem : List MatchSpec) :
    ∀ (d : PyDict MatchSpec) (k : String),
      dictGet (delFold d rem) k = if notInNames rem k then dictGet d k else none := by
  induction rem with
  | nil => intro d k; simp [delFold, notInNames, List.contains]
  | cons m rem' ih =>
    intro d k
    have hstep : delFold d (m :: rem') = delFold (dictDel d m.name) rem' := rfl
    rw [hstep, ih, dictGet_dictDel, notInNames_cons]
    by_cases h : k = m.name
    · have hb : (!(k == m.name) && notInNames rem' k) = false := by simp [h]
      rw [hb, if_pos h]
      by_cases h2 : notInNames rem' k = true <;> simp [h2]
    · have hb : (!(k == m.name) && notInNames rem' k) = notInNames rem' k := by simp [h]
      rw [hb, if_neg h]

theorem nodup_setFold (u : List MatchSpec) :
    ∀ d : PyDict MatchSpec, nodupKeys d → nodupKeys (setFold d u) := by
  induction u with
  | nil => intro d h; simpa [setFold] using h
  | cons m u' ih =>
    intro d h
    have hstep : setFold d (m :: u') = setFold (dictSet d (m.name, m)) u' := by
      simp [setFold]
    rw [hstep]
    exact ih _ (nodup_dictSet d m.name m h)

theorem nodup_delFold (rem : List MatchSpec) (d : PyDict MatchSpec)
    (h : nodupKeys d) : nodupKeys (delFold d rem) := by
  unfold nodupKeys
  rw [dictKeys_delFold]
  exact h.filter _

theorem mergeField_idem {α : Type} (a b : Option α) :
    mergeField (mergeField a b) b = mergeField a b := by
  cases b <;> simp [mergeField]

/-! ## GoodDict invariant and dict rebuild -/

theorem parse_render_parse (s : String) :
    MatchSpec.parse ((MatchSpec.parse s).render) = MatchSpec.parse s := by
  rw [MatchSpec.render_parse]

theorem good_dictSet (d : PyDict MatchSpec) (m : MatchSpec)
    (hd : GoodDict d) (hm : MatchSpec.parse m.render = m) :
    GoodDict (dictSet d (m.name, m)) := by
  induction d with
  | nil =>
    intro kv hkv
    rcases List.mem_singleton.mp hkv with rfl
    exact ⟨rfl, hm⟩
  | cons p t ih =>
    have hstep : dictSet (p :: t) (m.name, m)
        = if p.1 = m.name then (m.name, m) :: t else p :: dictSet t (m.name, m) := rfl
    rw [hstep]
    by_cases h : p.1 = m.name
    · rw [if_pos h]
      intro kv hkv
      rcases List.mem_cons.mp hkv with rfl | hkv
      · exact ⟨rfl, hm⟩
      · exact hd kv (List.mem_cons.mpr (Or.inr hkv))
    · rw [if_neg h]
      intro kv hkv
      rcases List.mem_cons.mp hkv with rfl | hkv
      · exact hd kv (List.mem_cons.mpr (Or.inl rfl))
      · exact ih (fun q hq => hd q (List.mem_cons.mpr (Or.inr hq))) kv hkv

theorem good_setFold (u : List MatchSpec) :
    ∀ d : PyDict MatchSpec, GoodDict d →
      (∀ m ∈ u, MatchSpec.parse m.render = m) → GoodDict (setFold d u) := by
  induction u with
  | nil => intro d hd _; exact hd
  | cons m u' ih =>
    intro d hd hu
    have hstep : setFold d (m :: u') = setFold (dictSet d (m.name, m)) u' := rfl
    rw [hstep]
    exact ih _ (good_dictSet d m hd (hu m (List.mem_cons.mpr (Or.inl rfl))))
      (fun q hq => hu q (List.mem_cons.mpr (Or.inr hq)))

theorem good_delFold (rem : List MatchSpec) :
    ∀ d : PyDict MatchSpec, GoodDict d → GoodDict (delFold d rem) := by
  induction rem with
  | nil => intro d hd; exact hd
  | cons m rem' ih =>
    intro d hd
    have hstep : delFold d (m :: rem') = delFold (dictDel d m.name) rem' := rfl
    rw [hstep]
    exact ih _ (fun kv hkv => hd kv (List.mem_of_mem_filter hkv))

theorem good_buildDict (specs : List MatchSpec)
    (h : ∀ m ∈ specs, MatchSpec.parse m.render = m) : GoodDict (buildDict specs) := by
  unfold buildDict
  exact good_setFold specs [] (fun kv hkv => absurd hkv (List.not_mem_nil kv)) h

theorem setFold_cons_keyfree (u : List MatchSpec) :
    ∀ (d : PyDict MatchSpec) (k : String) (v : MatchSpec),
      (∀ m ∈ u, m.name ≠ k) →
      setFold ((k, v) :: d) u = (k, v) :: setFold d u := by
  induction u with
  | nil => intro d k v _; rfl
  | cons m u' ih =>
    intro d k v hu
    have h1 : setFold ((k, v) :: d) (m :: u')
        = setFold (dictSet ((k, v) :: d) (m.name, m)) u' := rfl
    have h2 : dictSet ((k, v) :: d) (m.name, m) = (k, v) :: dictSet d (m.name, m) := by
      have : dictSet ((k, v) :: d) (m.name, m)
          = if k = m.name then (m.name, m) :: d else (k, v) :: dictSet d (m.name, m) := rfl
      rw [this, if_neg (fun he => hu m (List.mem_cons.mpr (Or.inl rfl)) he.symm)]
    rw [h1, h2,
      ih (dictSet d (m.name, m)) k v (fun q hq => hu q (List.mem_cons.mpr (Or.inr hq)))]
    rfl

theorem buildDict_rebuild (d : PyDict MatchSpec) :
    nodupKeys d → (∀ kv ∈ d, kv.1 = kv.2.name) → buildDict (d.map (·.2)) = d := by
  induction d with
  | nil => intro _ _; rfl
  | cons p t ih =>
    intro hnod hkey
    cases p with
    | mk k v =>
      have hk : k = v.name := (hkey (k, v) (List.mem_cons.mpr (Or.inl rfl))).symm ▸ rfl
      have hkv : k = v.name := hkey (k, v) (List.mem_cons.mpr (Or.inl rfl))
      have hkn : k ∉ dictKeys t := (List.nodup_cons.mp hnod).1
      have hfree : ∀ m ∈ t.map (·.2), m.name ≠ k := by
        intro m hm he
        rcases List.mem_map.mp hm with ⟨q, hq, rfl⟩
        have : q.1 = q.2.name := hkey q (List.mem_cons.mpr (Or.inr hq))
        apply hkn
        rw [show dictKeys t = t.map (·.1) from rfl]
        exact List.mem_map.mpr ⟨q, hq, by rw [this, he]⟩
      have hmap : ((k, v) :: t).map (·.2) = v :: t.map (·.2) := rfl
      rw [hmap]
      unfold buildDict setFold
      rw [List.foldl_cons]
      have hset : dictSet ([] : PyDict MatchSpec) (v.name, v) = [(v.name, v)] := rfl
      rw [hset]
      have := setFold_cons_keyfree (t.map (·.2)) [] v.name v
        (by intro m hm; rw [← hkv]; exact hfree m hm)
      rw [show List.foldl (fun d m => dictSet d (m.name, m)) [(v.name, v)] (t.map (·.2))
          = setFold [(v.name, v)] (t.map (·.2)) from rfl]
      rw [this]
      rw [show setFold [] (t.map (·.2)) = buildDict (t.map (·.2)) from rfl]
      rw [ih (List.nodup_cons.mp hnod).2 (fun q hq => hkey q (List.mem_cons.mpr (Or.inr hq)))]
      rw [← hkv]

/-! ## The reconciliation fixed-point lemma -/

theorem filter_idem {α : Type} (p : α → Bool) (l : List α) :
    (l.filter p).filter p = l.filter p := by
  rw [List.filter_filter]
  apply List.filter_congr
  intro x _
  cases h : p x <;> simp [h]

/-- Re-applying the same update and removal deltas to the reconciled dict
is a no-op: `del r (set u (del r (set u B))) = del r (set u B)`. -/
theorem reconcile_fixed_point (B : PyDict MatchSpec) (u rem : List MatchSpec)
    (hnod : nodupKeys B) :
    delFold (setFold (delFold (setFold B u) rem) u) rem = delFold (setFold B u) rem := by
  set W := setFold B u with hW
  set D := delFold W rem with hD
  have hnodW : nodupKeys W := nodup_setFold u B hnod
  have hnodD : nodupKeys D := nodup_delFold rem W hnodW
  have hnodL : nodupKeys (delFold (setFold D u) rem) :=
    nodup_delFold rem _ (nodup_setFold u D hnodD)
  -- keys agree
  have hkeys : dictKeys (delFold (setFold D u) rem) = dictKeys D := by
    rcases dictKeys_setFold_exists u D with ⟨e, he, hmem⟩
    rw [dictKeys_delFold, he, List.filter_append]
    have h1 : (dictKeys D).filter (notInNames rem) = dictKeys D := by
      rw [hD, dictKeys_delFold, filter_idem]
    have h2 : e.filter (notInNames rem) = [] := by
      rw [List.filter_eq_nil_iff]
      intro x hx
      have hxu : x ∈ u.map MatchSpec.name := (hmem x hx).1
      have hxD : x ∉ dictKeys D := (hmem x hx).2
      rcases List.mem_map.mp hxu with ⟨m, hm, rfl⟩
      have hxW : m.name ∈ dictKeys W := name_mem_keys_setFold u B m hm
      rw [hD, dictKeys_delFold, List.mem_filter] at hxD
      intro hcontra
      exact hxD ⟨hxW, hcontra⟩
    rw [h1, h2, List.append_nil]
  -- gets agree
  have hget : ∀ k, dictGet (delFold (setFold D u) rem) k = dictGet D k := by
    intro k
    rw [dictGet_delFold, dictGet_setFold, hD, dictGet_delFold, hW, dictGet_setFold]
    by_cases h : notInNames rem k = true
    · rw [if_pos h, if_pos h]
      exact mergeField_idem (dictGet B k) (lastVal u k)
    · rw [if_neg h, if_neg h]
  exact pyDictExt _ D hnodL hnodD hkeys hget

/-! ## Config serialization round trip -/

theorem channelPriority_ofVal_val (e : ChannelPriority) :
    ChannelPriority.ofVal e.val = some e := by
  cases e <;> rfl

theorem depsModifier_ofVal_val (e : DepsModifier) :
    DepsModifier.ofVal e.val = some e := by
  cases e <;> rfl

theorem satSolverChoice_ofVal_val (e : SatSolverChoice) :
    SatSolverChoice.ofVal e.val = some e := by
  cases e <;> rfl

theorem updateModifier_ofVal_val (e : UpdateModifier) :
    UpdateModifier.ofVal e.val = some e := by
  cases e <;> rfl

/-- Reading back the config table `env_to_dict` wrote yields a config that
serializes to the same table again: one full write/read/write cycle of the
configuration is stable. -/
theorem configFile_roundtrip (ec : EnvironmentConfig) (cf : ConfigFile)
    (h : configToFile ec = some cf) :
    ∃ ec₂, configFromFile cf = some ec₂ ∧ configToFile ec₂ = some cf := by
  unfold configToFile at h
  cases hcp : ec.channel_priority with
  | none => rw [hcp] at h; simp [Option.bind] at h
  | some cp =>
  cases hdm : ec.deps_modifier with
  | none => rw [hcp, hdm] at h; simp [Option.bind] at h
  | some dm =>
  cases hss : ec.sat_solver with
  | none => rw [hcp, hdm, hss] at h; simp [Option.bind] at h
  | some ss =>
  cases hum : ec.update_modifier with
  | none => rw [hcp, hdm, hss, hum] at h; simp [Option.bind] at h
  | some um =>
  cases hch : ec.channels with
  | none => rw [hcp, hdm, hss, hum, hch] at h; simp [Option.bind] at h
  | some chans =>
  cases hcs : ec.channel_settings with
  | none => rw [hcp, hdm, hss, hum, hch, hcs] at h; simp [Option.bind] at h
  | some cset =>
  cases hdi : ec.disallowed_packages with
  | none => rw [hcp, hdm, hss, hum, hch, hcs, hdi] at h; simp [Option.bind] at h
  | some dis =>
  cases hpi : ec.pinned_packages with
  | none => rw [hcp, hdm, hss, hum, hch, hcs, hdi, hpi] at h; simp [Option.bind] at h
  | some pin =>
  cases hre : ec.repodata_fns with
  | none => rw [hcp, hdm, hss, hum, hch, hcs, hdi, hpi, hre] at h; simp [Option.bind] at h
  | some rep =>
  cases hso : ec.solver with
  | none => rw [hcp, hdm, hss, hum, hch, hcs, hdi, hpi, hre, hso] at h; simp [Option.bind] at h
  | some sol =>
  cases htf : ec.track_features with
  | none =>
    rw [hcp, hdm, hss, hum, hch, hcs, hdi, hpi, hre, hso, htf] at h
    simp [Option.bind] at h
  | some tf =>
  rw [hcp, hdm, hss, hum, hch, hcs, hdi, hpi, hre, hso, htf] at h
  simp only [Option.bind_eq_bind, Option.some_bind] at h
  have hcf : cf =
      { aggressive_update_packages :=
          some ((ec.aggressive_update_packages.getD []).map MatchSpec.render)
        channel_priority := some cp.val
        channels := some chans
        channel_settings := some cset
        deps_modifier := some dm.val
        disallowed_packages := some dis
        pinned_packages := some pin
        repodata_fns := some rep
        sat_solver := some ss.val
        solver := some sol
        track_features := some tf
        update_modifier := some um.val
        use_only_tar_bz2 := some (ec.use_only_tar_bz2.getD false) } := by
    exact (Option.some.inj h).symm
  subst hcf
  refine ⟨{ aggressive_update_packages := some (((ec.aggressive_update_packages.getD []).map MatchSpec.render).map MatchSpec.parse),
            channel_priority := some cp,
            channels := some chans,
            channel_settings := some cset,
            deps_modifier := some dm,
            disallowed_packages := some dis,
            pinned_packages := some pin,
            repodata_fns := some rep,
            sat_solver := some ss,
            solver := some sol,
            track_features := some tf,
            update_modifier := some um,
            use_only_tar_bz2 := some (ec.use_only_tar_bz2.getD false) }, ?_, ?_⟩
  · unfold configFromFile
    simp only [channelPriority_ofVal_val, depsModifier_ofVal_val, satSolverChoice_ofVal_val,
      updateModifier_ofVal_val, Option.bind_eq_bind, Option.some_bind]
    rfl
  · unfold configToFile
    simp only [Option.bind_eq_bind, Option.some_bind, Option.getD_some, Option.map_some]
    congr 2
    rw [List.map_map,
      show (MatchSpec.render ∘ MatchSpec.parse) = id from funext MatchSpec.render_parse,
      List.map_id]

/-! ## update_state characterization lemmas -/

theorem envToDict_config_some (env : CondaEnv) (cfg : EnvironmentConfig) (cf : ConfigFile)
    (hc : env.config = some cfg) (hcf : configToFile cfg = some cf) :
    envToDict env = some
      { pfx := env.pfx, platform := env.platform, name := env.name.getD "",
        requested_packages := env.requested_packages.map MatchSpec.render,
        config := some cf } := by
  unfold envToDict
  rw [hc]
  simp [Option.bind, hcf]

theorem envToDict_config_fail (env : CondaEnv) (cfg : EnvironmentConfig)
    (hc : env.config = some cfg) (hcf : configToFile cfg = none) :
    envToDict env = none := by
  unfold envToDict
  rw [hc]
  simp [Option.bind, hcf]

theorem dictToEnv_some_config (f : ManifestFile) (cf : ConfigFile) (cfg : EnvironmentConfig)
    (hf : f.config = some cf) (hcf : configFromFile cf = some cfg) :
    dictToEnv f = some
      { pfx := f.pfx, platform := f.platform, name := some f.name,
        config := some cfg,
        requested_packages := f.requested_packages.map MatchSpec.parse } := by
  unfold dictToEnv
  rw [hf]
  simp [Option.bind, Option.map, hcf]

theorem dictToEnv_none_config (f : ManifestFile) (hf : f.config = none) :
    dictToEnv f = some
      { pfx := f.pfx, platform := f.platform, name := some f.name,
        config := none,
        requested_packages := f.requested_packages.map MatchSpec.parse } := by
  unfold dictToEnv
  rw [hf]
  rfl

theorem dictToEnv_config_fail (f : ManifestFile) (cf : ConfigFile)
    (hf : f.config = some cf) (hcf : configFromFile cf = none) :
    dictToEnv f = none := by
  unfold dictToEnv
  rw [hf]
  simp [Option.bind, Option.map, hcf]

theorem dictToEnv_requested (f : ManifestFile) (env : CondaEnv)
    (h : dictToEnv f = some env) :
    env.requested_packages = f.requested_packages.map MatchSpec.parse := by
  cases hf : f.config with
  | none =>
    rw [dictToEnv_none_config f hf] at h
    cases h
    rfl
  | some cf =>
    cases hcf : configFromFile cf with
    | none =>
      rw [dictToEnv_config_fail f cf hf hcf] at h
      exact Option.noConfusion h
    | some cfg =>
      rw [dictToEnv_some_config f cf cfg hf hcf] at h
      cases h
      rfl

theorem updateState_no_file (ctx : CondaContext) (pfx? : Option String)
    (history : List String) (rs us : Option (List String)) :
    updateState ctx pfx? none history rs us
      = envToDict
          { pfx := pfx?.getD ctx.targetPfx, platform := ctx.subdir,
            name := ctx.envNameOf (pfx?.getD ctx.targetPfx),
            config := some (configFromContext ctx),
            requested_packages :=
              (delFold (setFold (buildDict (history.map MatchSpec.parse))
                  ((us.getD []).map MatchSpec.parse))
                ((rs.getD []).map MatchSpec.parse)).map (·.2) } := rfl

theorem updateState_some_file (ctx : CondaContext) (pfx? : Option String)
    (f : ManifestFile) (history : List String) (rs us : Option (List String)) :
    updateState ctx pfx? (some f) history rs us
      = (dictToEnv f).bind (fun env =>
          envToDict
            { pfx := pfx?.getD ctx.targetPfx, platform := ctx.subdir,
              name := ctx.envNameOf (pfx?.getD ctx.targetPfx),
              config := some ((env.config).getD (configFromContext ctx)),
              requested_packages :=
                (delFold (setFold (buildDict env.requested_packages)
                    ((us.getD []).map MatchSpec.parse))
                  ((rs.getD []).map MatchSpec.parse)).map (·.2) }) := rfl

theorem goodVals_map_parse_render (D : PyDict MatchSpec) (hD : GoodDict D) :
    ((D.map (·.2)).map MatchSpec.render).map MatchSpec.parse = D.map (·.2) := by
  rw [List.map_map, List.map_map]
  apply List.map_congr_left
  intro kv hkv
  exact (hD kv hkv).2

/-! ## Claim C1: remove and update naming the same package -/

/-- C1 counterexample: updating and removing `flask` in the same call
leaves the persisted dependency set empty — the package is absent, not
present with the updated constraint, because the removal loop runs after
the update in state.py lines 74-77. -/
theorem c1_counterexample :
    (updateState ctxC none none [] (some ["flask"]) (some ["flask=1.0"])).map
      (·.requested_packages) = some [] := by
  rfl

/-- C1 (amended): whenever `update_state` persists a manifest, no package
named by `remove_specs` appears in the written dependency set — the
removal, applied after the updates, wins over an update of the same
name. -/
theorem c1_remove_wins (ctx : CondaContext) (pfx? : Option String)
    (file? : Option ManifestFile) (history : List String)
    (rs us : List String) (m : ManifestFile)
    (h : updateState ctx pfx? file? history (some rs) (some us) = some m)
    (s : String) (hs : s ∈ rs) :
    (MatchSpec.parse s).name ∉ m.requested_packages.map (fun t => (MatchSpec.parse t).name) := by
  -- characterize the written file
  have hchar : ∃ (B : PyDict MatchSpec) (cfg : EnvironmentConfig),
      GoodDict B ∧
      updateState ctx pfx? file? history (some rs) (some us)
        = envToDict
            { pfx := pfx?.getD ctx.targetPfx, platform := ctx.subdir,
              name := ctx.envNameOf (pfx?.getD ctx.targetPfx),
              config := some cfg,
              requested_packages :=
                (delFold (setFold B (us.map MatchSpec.parse)) (rs.map MatchSpec.parse)).map
                  (·.2) } := by
    cases file? with
    | none =>
      refine ⟨buildDict (history.map MatchSpec.parse), configFromContext ctx, ?_,
        updateState_no_file ctx pfx? history (some rs) (some us)⟩
      apply good_buildDict
      intro q hq
      rcases List.mem_map.mp hq with ⟨t, _, rfl⟩
      exact parse_render_parse t
    | some f =>
      cases hde : dictToEnv f with
      | none =>
        exfalso
        rw [updateState_some_file ctx pfx? f history (some rs) (some us), hde] at h
        exact Option.noConfusion h
      | some env =>
        refine ⟨buildDict env.requested_packages,
          env.config.getD (configFromContext ctx), ?_, ?_⟩
        · apply good_buildDict
          intro q hq
          rw [dictToEnv_requested f env hde] at hq
          rcases List.mem_map.mp hq with ⟨t, _, rfl⟩
          exact parse_render_parse t
        · rw [updateState_some_file ctx pfx? f history (some rs) (some us), hde]
          rfl
  obtain ⟨B, cfg, hBgood, heq⟩ := hchar
  rw [heq] at h
  set D := delFold (setFold B (us.map MatchSpec.parse)) (rs.map MatchSpec.parse) with hDdef
  have hDgood : GoodDict D := by
    apply good_delFold
    apply good_setFold _ _ hBgood
    intro q hq
    rcases List.mem_map.mp hq with ⟨t, _, rfl⟩
    exact parse_render_parse t
  -- the written names are the dict keys
  cases hcf : configToFile cfg with
  | none =>
    exfalso
    rw [envToDict_config_fail _ cfg rfl hcf] at h
    exact Option.noConfusion h
  | some cf =>
    rw [envToDict_config_some _ cfg cf rfl hcf] at h
    have hm := (Option.some.inj h).symm
    have hreq : m.requested_packages = (D.map (·.2)).map MatchSpec.render := by
      rw [hm]
    rw [hreq]
    have hnames : ((D.map (·.2)).map MatchSpec.render).map (fun t => (MatchSpec.parse t).name)
        = dictKeys D := by
      rw [List.map_map, List.map_map]
      apply List.map_congr_left
      intro kv hkv
      show (MatchSpec.parse kv.2.render).name = kv.1
      rw [(hDgood kv hkv).2, (hDgood kv hkv).1]
    rw [hnames, hDdef, dictKeys_delFold, List.mem_filter]
    intro ⟨_, hnot⟩
    have : (MatchSpec.parse s).name ∈ (rs.map MatchSpec.parse).map MatchSpec.name := by
      rw [List.map_map]
      exact List.mem_map.mpr ⟨s, hs, rfl⟩
    unfold notInNames at hnot
    rcases List.mem_map.mp this with ⟨q, hq, hqe⟩
    have : ((rs.map MatchSpec.parse).map MatchSpec.name).contains (MatchSpec.parse s).name
        = true := by
      apply List.elem_iff.mpr
      rw [List.map_map]
      exact List.mem_map.mpr ⟨s, hs, rfl⟩
    rw [this] at hnot
    exact Bool.noConfusion hnot

/-- C1 witness: the amended theorem applied at the counterexample call. -/
theorem c1_witness :
    (MatchSpec.parse "flask").name ∉
      (((updateState ctxC none none [] (some ["flask"]) (some ["flask=1.0"])).getD
          { pfx := "", platform := "" }).requested_packages).map
        (fun t => (MatchSpec.parse t).name) :=
  c1_remove_wins ctxC none none [] ["flask"] ["flask=1.0"]
    ((updateState ctxC none none [] (some ["flask"]) (some ["flask=1.0"])).getD
      { pfx := "", platform := "" })
    (by rfl) "flask" (by simp)

/-! ## Claim C4: reconciliation idempotence -/

/-- C4: calling `update_state` twice with identical arguments writes the
identical manifest file both times: whenever the first call persists `m1`,
the second call — whose baseline is `m1` itself rather than the original
manifest or history — persists exactly `m1` again. -/
theorem c4_idempotent (ctx : CondaContext) (pfx? : Option String)
    (file? : Option ManifestFile) (history : List String)
    (rs us : Option (List String)) (m1 : ManifestFile)
    (h : updateState ctx pfx? file? history rs us = some m1) :
    updateState ctx pfx? (some m1) history rs us = some m1 := by
  have hchar : ∃ (B : PyDict MatchSpec) (cfg : EnvironmentConfig),
      GoodDict B ∧ nodupKeys B ∧
      updateState ctx pfx? file? history rs us
        = envToDict
            { pfx := pfx?.getD ctx.targetPfx, platform := ctx.subdir,
              name := ctx.envNameOf (pfx?.getD ctx.targetPfx),
              config := some cfg,
              requested_packages :=
                (delFold (setFold B ((us.getD []).map MatchSpec.parse))
                  ((rs.getD []).map MatchSpec.parse)).map (·.2) } := by
    cases file? with
    | none =>
      refine ⟨buildDict (history.map MatchSpec.parse), configFromContext ctx, ?_, ?_,
        updateState_no_file ctx pfx? history rs us⟩
      · apply good_buildDict
        intro q hq
        rcases List.mem_map.mp hq with ⟨t, _, rfl⟩
        exact parse_render_parse t
      · exact nodup_setFold _ [] List.nodup_nil
    | some f =>
      cases hde : dictToEnv f with
      | none =>
        exfalso
        rw [updateState_some_file ctx pfx? f history rs us, hde] at h
        exact Option.noConfusion h
      | some env =>
        refine ⟨buildDict env.requested_packages,
          env.config.getD (configFromContext ctx), ?_, ?_, ?_⟩
        · apply good_buildDict
          intro q hq
          rw [dictToEnv_requested f env hde] at hq
          rcases List.mem_map.mp hq with ⟨t, _, rfl⟩
          exact parse_render_parse t
        · exact nodup_setFold _ [] List.nodup_nil
        · rw [updateState_some_file ctx pfx? f history rs us, hde]
          rfl
  obtain ⟨B, cfg, hBgood, hBnod, heq⟩ := hchar
  rw [heq] at h
  set upd := (us.getD []).map MatchSpec.parse with hupd
  set rem := (rs.getD []).map MatchSpec.parse with hremd
  set D := delFold (setFold B upd) rem with hDdef
  have hupdgood : ∀ q ∈ upd, MatchSpec.parse q.render = q := by
    intro q hq
    rw [hupd] at hq
    rcases List.mem_map.mp hq with ⟨t, _, rfl⟩
    exact parse_render_parse t
  have hDgood : GoodDict D := good_delFold rem _ (good_setFold upd B hBgood hupdgood)
  have hDnod : nodupKeys D := nodup_delFold rem _ (nodup_setFold upd B hBnod)
  cases hcf : configToFile cfg with
  | none =>
    exfalso
    rw [envToDict_config_fail _ cfg rfl hcf] at h
    exact Option.noConfusion h
  | some cf =>
    rw [envToDict_config_some _ cfg cf rfl hcf] at h
    have hm1 : m1 = { pfx := pfx?.getD ctx.targetPfx, platform := ctx.subdir,
                      name := (ctx.envNameOf (pfx?.getD ctx.targetPfx)).getD "",
                      requested_packages := (D.map (·.2)).map MatchSpec.render,
                      config := some cf } := (Option.some.inj h).symm
    obtain ⟨cfg₂, hfrom, hto⟩ := configFile_roundtrip cfg cf hcf
    have hm1cfg : m1.config = some cf := by rw [hm1]
    have hde₂ := dictToEnv_some_config m1 cf cfg₂ hm1cfg hfrom
    rw [updateState_some_file ctx pfx? m1 history rs us, hde₂]
    show envToDict
        { pfx := pfx?.getD ctx.targetPfx, platform := ctx.subdir,
          name := ctx.envNameOf (pfx?.getD ctx.targetPfx),
          config := some ((some cfg₂).getD (configFromContext ctx)),
          requested_packages := (delFold (setFold (buildDict (m1.requested_packages.map MatchSpec.parse)) upd) rem).map (·.2) } = some m1
    have hreq : m1.requested_packages.map MatchSpec.parse = D.map (·.2) := by
      rw [hm1]
      exact goodVals_map_parse_render D hDgood
    rw [hreq, buildDict_rebuild D hDnod (fun kv hkv => (hDgood kv hkv).1)]
    have hfix : delFold (setFold D upd) rem = D := by
      rw [hDdef]
      exact reconcile_fixed_point B upd rem hBnod
    rw [hfix, envToDict_config_some _ cfg₂ cf rfl hto, hm1]

/-- C4 witness: idempotence applied at a concrete call whose baseline is
the install history. -/
theorem c4_witness :
    updateState ctxC none
        (some ((updateState ctxC none none ["python"] (some ["x"]) (some ["flask"])).getD
          { pfx := "", platform := "" }))
        ["python"] (some ["x"]) (some ["flask"])
      = some ((updateState ctxC none none ["python"] (some ["x"]) (some ["flask"])).getD
          { pfx := "", platform := "" }) :=
  c4_idempotent ctxC none none ["python"] (some ["x"]) (some ["flask"]) _ (by rfl)

/-! ## Claim C2: variant dispatch error on double failure -/

/-- C2 counterexample: a raw document failing both variants — the about
table is valid, the dependencies value `5` fails the single-environment
variant, the explicitly empty groups table fails the multi-environment
variant — makes `TomlEnvironment.model_validate` raise exactly the
multi-environment attempt's error; the single-environment attempt's error
item is not contained in it, so the error is not aggregated. -/
theorem c2_counterexample :
    validateSingleE c2Doc
      = .error (.validation (vErr ["dependencies"]
          ("Value error, Unsupported type (<class \x27int\x27>) encountered while " ++
            "validating a match spec: 5")))
    ∧ tomlEnvironmentModelValidate c2Doc
      = .error (.validation (vErr ["groups"]
          ("Value error, At least one group is required in a " ++
            "multi-environment specification.")))
    ∧ ({ loc := ["dependencies"],
         msg := "Value error, Unsupported type (<class \x27int\x27>) encountered while " ++
           "validating a match spec: 5" } : VErrItem)
        ∉ vErr ["groups"]
            ("Value error, At least one group is required in a " ++
              "multi-environment specification.") := by
  refine ⟨rfl, rfl, by decide⟩

/-- C2 (amended): when both variants fail, `TomlEnvironment.model_validate`
raises exactly the exception of the multi-environment attempt — the last
attempt's error, not an aggregate of both attempts' errors. -/
theorem c2_last_error_wins (kvs : List (String × RVal)) (e₁ : List VErrItem) (e₂ : PyExc)
    (h1 : validateSingleE kvs = .error (.validation e₁))
    (h2 : validateMultiE kvs = .error e₂) :
    tomlEnvironmentModelValidate kvs = .error e₂ := by
  unfold tomlEnvironmentModelValidate
  rw [h1, h2]
  rfl

/-- C2 witness: the amended theorem applied at the counterexample
document. -/
theorem c2_witness :
    tomlEnvironmentModelValidate c2Doc
      = .error (.validation (vErr ["groups"]
          ("Value error, At least one group is required in a " ++
            "multi-environment specification."))) :=
  c2_last_error_wins c2Doc
    (vErr ["dependencies"]
      ("Value error, Unsupported type (<class \x27int\x27>) encountered while " ++
        "validating a match spec: 5"))
    (.validation (vErr ["groups"]
      ("Value error, At least one group is required in a " ++
        "multi-environment specification.")))
    rfl rfl

/-! ## Claim C3 support: set membership and message containment -/

theorem strHasSub_self (n : String) : strHasSub n n = true := by
  unfold strHasSub
  have h := chListHasPre_append n.data []
  rw [List.append_nil] at h
  exact chListHasSub_of_pre h

theorem mem_sortSet (l : List String) (g : String) : g ∈ sortSet l ↔ g ∈ l := by
  unfold sortSet
  rw [mem_sortByKey, List.mem_dedup]

theorem contains_iff_memStr (l : List String) (g : String) : l.contains g = true ↔ g ∈ l :=
  List.elem_iff

theorem sub_pformatBody (ms : List String) (g : String) (hg : g ∈ ms) :
    strHasSub g (pformatStrSetBody ms) = true := by
  induction ms with
  | nil => simp at hg
  | cons s rest ih =>
    cases rest with
    | nil =>
      rcases List.mem_singleton.mp hg with rfl
      show strHasSub g ("\x27" ++ g ++ "\x27") = true
      exact strHasSub_append_left "\x27" (strHasSub_append_right "\x27" (strHasSub_self g))
    | cons s₂ rest₂ =>
      rcases List.mem_cons.mp hg with rfl | hg₂
      · show strHasSub g ("\x27" ++ g ++ "\x27, " ++ pformatStrSetBody (s₂ :: rest₂)) = true
        exact strHasSub_append_left _
          (strHasSub_append_left "\x27, " (strHasSub_append_right "\x27" (strHasSub_self g)))
      · show strHasSub g ("\x27" ++ s ++ "\x27, " ++ pformatStrSetBody (s₂ :: rest₂)) = true
        exact strHasSub_append_right _ (ih hg₂)

theorem sub_pformatSet (ms : List String) (g : String) (hg : g ∈ ms) :
    strHasSub g (pformatStrSet ms) = true := by
  unfold pformatStrSet
  exact strHasSub_append_left "\x7d" (strHasSub_append_right "\x7b" (sub_pformatBody ms g hg))

theorem sub_missingChunks (missing : List (String × List String)) (e : String)
    (ms : List String) (h : (e, ms) ∈ missing) :
    strHasSub e (missingChunks missing) = true
    ∧ ∀ g ∈ ms, strHasSub g (missingChunks missing) = true := by
  induction missing with
  | nil => simp at h
  | cons p rest ih =>
    cases p with
    | mk e' ms' =>
      rcases List.mem_cons.mp h with he | hrest
      · cases he
        constructor
        · show strHasSub e (e ++ "  " ++ pformatStrSet ms ++ missingChunks rest) = true
          exact strHasSub_append_left _
            (strHasSub_append_left _ (strHasSub_self_append e "  "))
        · intro g hg
          show strHasSub g (e ++ "  " ++ pformatStrSet ms ++ missingChunks rest) = true
          exact strHasSub_append_left _
            (strHasSub_append_right _ (sub_pformatSet ms g hg))
      · rcases ih hrest with ⟨h1, h2⟩
        constructor
        · show strHasSub e (e' ++ "  " ++ pformatStrSet ms' ++ missingChunks rest) = true
          exact strHasSub_append_right _ h1
        · intro g hg
          show strHasSub g (e' ++ "  " ++ pformatStrSet ms' ++ missingChunks rest) = true
          exact strHasSub_append_right _ (h2 g hg)

theorem mem_missing_sub (missing : List (String × List String)) (e : String)
    (ms : List String) (h : (e, ms) ∈ missing) :
    strHasSub e (envsErrorMsg missing) = true
    ∧ ∀ g ∈ ms, strHasSub g (envsErrorMsg missing) = true := by
  rcases sub_missingChunks missing e ms h with ⟨h1, h2⟩
  unfold envsErrorMsg
  exact ⟨strHasSub_append_left "\x27" (strHasSub_append_right _ h1),
    fun g hg => strHasSub_append_left "\x27" (strHasSub_append_right _ (h2 g hg))⟩

/-! ## Claim C3: multi-environment referential integrity -/

/-- C3: for every non-empty environments table, if any environment
references a group not defined under `groups`, validation fails with the
one aggregated ValueError whose message names every offending environment
together with each of its missing groups (each offending pair contributes
an entry of the collected missing map and appears in the message); if all
referenced groups are defined, validation succeeds and, when some defined
group is referenced by no environment, only the non-fatal warning listing
those unused groups is emitted. -/
theorem c3_referential_integrity (envs : List (String × List String)) (groups : List String)
    (hne : envs ≠ []) :
    ((∃ p ∈ envs, ∃ g ∈ p.2, g ∉ groups) →
      validateEnvironmentsField envs groups
        = .error (.validation (vErr ["environments"]
            ("Value error, " ++ envsErrorMsg (envsCheck envs groups).missing)))
      ∧ (∀ e gs, (e, gs) ∈ envs → ∀ g ∈ gs, g ∉ groups →
          ∃ ms, (e, ms) ∈ (envsCheck envs groups).missing ∧ g ∈ ms
            ∧ strHasSub e (envsErrorMsg (envsCheck envs groups).missing) = true
            ∧ strHasSub g (envsErrorMsg (envsCheck envs groups).missing) = true))
    ∧ ((∀ p ∈ envs, ∀ g ∈ p.2, g ∈ groups) →
        validateEnvironmentsField envs groups
          = .ok (envs,
              if (envsCheck envs groups).extra.isEmpty then []
              else [unusedGroupsWarning (envsCheck envs groups).extra])
        ∧ (∀ g ∈ groups, (∀ p ∈ envs, g ∉ p.2) → g ∈ (envsCheck envs groups).extra)) := by
  have hneb : envs.isEmpty = false := by
    cases henv : envs.isEmpty
    · rfl
    · exact absurd (List.isEmpty_iff.mp henv) hne
  have hmain : ∀ e gs, (e, gs) ∈ envs → ∀ g ∈ gs, g ∉ groups →
      ∃ ms, (e, ms) ∈ (envsCheck envs groups).missing ∧ g ∈ ms := by
    intro e gs hmem g hg hgn
    refine ⟨sortSet (gs.filter (fun x => !(groups.contains x))), ?_, ?_⟩
    · apply List.mem_filterMap.mpr
      refine ⟨(e, gs), hmem, ?_⟩
      have hgf : g ∈ gs.filter (fun x => !(groups.contains x)) := by
        apply List.mem_filter.mpr
        refine ⟨hg, ?_⟩
        have : groups.contains g = false := by
          cases hc : groups.contains g
          · rfl
          · exact absurd ((contains_iff_memStr groups g).mp hc) hgn
        rw [this]
        rfl
      have hne2 : (sortSet (gs.filter (fun x => !(groups.contains x)))).isEmpty = false := by
        have hmem2 : g ∈ sortSet (gs.filter (fun x => !(groups.contains x))) :=
          (mem_sortSet _ g).mpr hgf
        cases hie : (sortSet (gs.filter (fun x => !(groups.contains x)))).isEmpty
        · rfl
        · rw [List.isEmpty_iff.mp hie] at hmem2
          simp at hmem2
      simp only [hne2, Bool.false_eq_true, if_neg]
      rfl
    · exact (mem_sortSet _ g).mpr ((List.mem_filter.mpr ⟨hg, by
        have : groups.contains g = false := by
          cases hc : groups.contains g
          · rfl
          · exact absurd ((contains_iff_memStr groups g).mp hc) hgn
        rw [this]
        rfl⟩))
  constructor
  · intro ⟨p, hp, g0, hg0, hg0n⟩
    have hmiss_ne : (envsCheck envs groups).missing ≠ [] := by
      rcases hmain p.1 p.2 (by rcases p with ⟨a, b⟩; exact hp) g0 hg0 hg0n with ⟨ms, hms, _⟩
      exact List.ne_nil_of_mem hms
    have hmb : (envsCheck envs groups).missing.isEmpty = false := by
      cases hmi : (envsCheck envs groups).missing.isEmpty
      · rfl
      · exact absurd (List.isEmpty_iff.mp hmi) hmiss_ne
    constructor
    · unfold validateEnvironmentsField
      rw [if_neg (by rw [hneb]; exact Bool.false_ne_true)]
      rw [if_neg (by rw [hmb]; exact Bool.false_ne_true)]
    · intro e gs hmem g hg hgn
      rcases hmain e gs hmem g hg hgn with ⟨ms, hms, hgin⟩
      rcases mem_missing_sub _ e ms hms with ⟨h1, h2⟩
      exact ⟨ms, hms, hgin, h1, h2 g hgin⟩
  · intro hall
    have hmiss : (envsCheck envs groups).missing = [] := by
      apply List.filterMap_eq_nil_iff.mpr
      intro kv hkv
      have hfil : kv.2.filter (fun x => !(groups.contains x)) = [] := by
        apply List.filter_eq_nil_iff.mpr
        intro g hg
        have hin : g ∈ groups := hall kv hkv g hg
        have hc : groups.contains g = true := (contains_iff_memStr groups g).mpr hin
        rw [hc]
        simp
      simp only [hfil]
      rfl
    have hmb : (envsCheck envs groups).missing.isEmpty = true := by
      rw [hmiss]
      rfl
    constructor
    · unfold validateEnvironmentsField
      rw [if_neg (by rw [hneb]; exact Bool.false_ne_true)]
      rw [if_pos hmb]
    · intro g hgin hunref
      unfold envsCheck
      simp only
      apply (mem_sortSet _ g).mpr
      apply List.mem_filter.mpr
      refine ⟨hgin, ?_⟩
      have : envs.any (fun kv => kv.2.contains g) = false := by
        apply List.any_eq_false.mpr
        intro kv hkv
        intro hc
        exact hunref kv hkv ((contains_iff_memStr kv.2 g).mp hc)
      rw [this]
      rfl

/-- C3 witness: the theorem applied to the concrete document of the spec's
scenario 5 — one environment `default` referencing the undefined group
`b` — and, for the success side, to a document with an unused group. -/
theorem c3_witness :
    validateEnvironmentsField [("default", ["b"])] ["a"]
      = .error (.validation (vErr ["environments"]
          ("Value error, " ++
            envsErrorMsg (envsCheck [("default", ["b"])] ["a"]).missing)))
    ∧ validateEnvironmentsField [("main", ["a"])] ["a", "b"]
      = .ok ([("main", ["a"])],
          if (envsCheck [("main", ["a"])] ["a", "b"]).extra.isEmpty then []
          else [unusedGroupsWarning (envsCheck [("main", ["a"])] ["a", "b"]).extra]) :=
  ⟨((c3_referential_integrity [("default", ["b"])] ["a"] (by simp)).1
      ⟨("default", ["b"]), by simp, "b", by simp, by simp⟩).1,
   ((c3_referential_integrity [("main", ["a"])] ["a", "b"] (by simp)).2
      (by intro p hp g hg; simp at hp; rw [hp] at hg; simp at hg; simp [hg])).1⟩
